import Mathlib

/-!
# EBF run-time core (`src/Core/EBF_Logic.cpp`, `EBF_Logic.h`, `EBF_Global.h`)

A shallow embedding of the scheduler class `EBF_Logic`: driver registration,
the polling step and delay computation of `Process`, the busy-wait loop, the
interrupt route table, and the sleep procedure with its drift accumulator.

Conventions.
* C unsigned integers are natural numbers; every place where the C code
  truncates (`uint8_t`, `uint16_t`, `uint32_t`/`unsigned long`) is written as
  an explicit remainder.
* Calls whose body lives outside `EBF_Logic` (a driver's virtual `Process()`
  and `ProcessCallback()`, `yield()`, Arduino's `attachInterrupt`) are recorded
  as `Event`s, in program order.
* Readings of the hardware clock, the value returned by the timer subsystem
  and the way the CPU is woken from sleep are supplied by an `Env`.
-/

namespace EBF

/-! ## `EBF_Global.h` -/

/-- The sentinel `#define EBF_NO_POLLING 0xFFFF`. -/
def EBF_NO_POLLING : Nat := 0xFFFF

/-- The enumeration `EBF_ERROR_CODE`. -/
inductive EBF_ERROR_CODE
  | EBF_OK
  | EBF_NOT_ENOUGH_MEMORY
  | EBF_INDEX_OUT_OF_BOUNDS
  | EBF_RESOURCE_IS_IN_USE
  | EBF_NOT_INITIALIZED
  | EBF_INVALID_STATE
  deriving DecidableEq

/-- The enumeration `EBF_SleepMode`. -/
inductive EBF_SleepMode
  | EBF_NO_SLEEP
  | EBF_SLEEP_LIGHT
  | EBF_SLEEP_DEEP
  deriving DecidableEq

open EBF_ERROR_CODE EBF_SleepMode

/-! ## Machine arithmetic -/

/-- Number of values of a 16-bit unsigned integer. -/
def U16 : Nat := 65536

/-- Number of values of a 32-bit unsigned integer (`uint32_t`, `unsigned long`). -/
def U32 : Nat := 4294967296

/-- Subtraction of two 32-bit unsigned values, wrapping around. -/
def sub32 (a b : Nat) : Nat := (a % U32 + U32 - b % U32) % U32

/-- Addition of two 32-bit unsigned values, wrapping around. -/
def add32 (a b : Nat) : Nat := (a + b) % U32

/-- Multiplication of two 32-bit unsigned values, wrapping around. -/
def mul32 (a b : Nat) : Nat := (a * b) % U32

/-! ## Collaborators that are not part of `EBF_Logic` -/

/-- Address of a driver object (`EBF_HalInstance*`, not `NULL`). -/
abbrev HalPtr := Nat

/-- Modelled from the spec: the class `EBF_HalInstance` (its header is not among the
sources). Of a driver the scheduler uses the polling interval in milliseconds
(or the "never poll" sentinel) and the timestamp of its last poll (driver
capability contract, section 6 of the specification). What a driver does in its own
`Process()` is not the scheduler's; the call is recorded as an `Event` and leaves
these two values to the scheduler. -/
structure EBF_HalInstance where
  pollIntervalMs : Nat
  lastPollMillis : Nat
  deriving DecidableEq

/-- Modelled from the spec: `PollingInterval() -> milliseconds | NeverPoll`, a 16-bit value. -/
def EBF_HalInstance.GetPollingInterval (h : EBF_HalInstance) : Nat :=
  h.pollIntervalMs % U16

/-- Modelled from the spec: `LastPollTimestamp() -> milliseconds`, an `unsigned long`. -/
def EBF_HalInstance.GetLastPollMillis (h : EBF_HalInstance) : Nat :=
  h.lastPollMillis % U32

/-- Modelled from the spec: `SetLastPollTimestamp(ms)`. -/
def EBF_HalInstance.SetLastPollMillis (h : EBF_HalInstance) (ms : Nat) : EBF_HalInstance :=
  { h with lastPollMillis := ms % U32 }

/-- Modelled from the spec: a message entry, "at minimum one pointer-sized field
identifying a target driver" (`msg.param1`). -/
structure MessageEntry where
  param1 : Nat
  deriving DecidableEq

/-- Modelled from the spec: the class `EBF_MessageQueue` (not among the sources), a
fixed-capacity FIFO; `entries` holds the pending messages, oldest first. -/
structure EBF_MessageQueue where
  capacity : Nat
  entries : List MessageEntry
  deriving DecidableEq

/-- Modelled from the spec: `PendingCount()`. -/
def EBF_MessageQueue.GetMessagesNumber (q : EBF_MessageQueue) : Nat :=
  q.entries.length

/-- Modelled from the spec: `GetMessage()`; on an empty queue it fails with `InvalidState`,
otherwise it removes and returns the oldest entry. -/
def EBF_MessageQueue.GetMessage (q : EBF_MessageQueue) :
    EBF_ERROR_CODE × MessageEntry × EBF_MessageQueue :=
  match q.entries with
  | [] => (EBF_INVALID_STATE, { param1 := 0 }, q)
  | m :: rest => (EBF_OK, m, { q with entries := rest })

/-- Modelled from the spec: `AddMessage(entry)`; when full it fails with `ResourceIsInUse`. -/
def EBF_MessageQueue.AddMessage (q : EBF_MessageQueue) (m : MessageEntry) :
    EBF_ERROR_CODE × EBF_MessageQueue :=
  if q.entries.length < q.capacity then (EBF_OK, { q with entries := q.entries ++ [m] })
  else (EBF_RESOURCE_IS_IN_USE, q)

/-! ## Observable calls -/

/-- Calls that leave `EBF_Logic`, in the order in which the code makes them. -/
inductive Event
  /-- The call `pHal->Process()` of the polling loop, for registry slot `i`. -/
  | halProcess (i : Nat)
  /-- The call `pHalInstance->Process()` for a message taken from the queue. -/
  | msgProcess (p : Nat)
  /-- The call `msgQueue.GetMessage(msg)`. -/
  | getMessage
  /-- The call `yield()`. -/
  | yield
  /-- The call `EnterSleep(msSleep)` made by `Process`. -/
  | enterSleep (msSleep : Nat)
  /-- The call `pHalIsr[line]->ProcessCallback()`, with the value of `isRunFromISR` during it. -/
  | processCallback (p : HalPtr) (isRunFromISR : Nat)
  /-- The call `attachInterrupt(line, EBF_ISR_Handler_line, mode)`. -/
  | attachInterrupt (line : Nat) (mode : Nat)
  deriving DecidableEq

/-! ## Build configuration and environment -/

/-- The preprocessor symbols the code is compiled under. -/
structure Config where
  EBF_USE_INTERRUPTS : Bool
  EBF_SLEEP_IMPLEMENTATION : Bool
  EXTERNAL_NUM_INTERRUPTS : Nat
  deriving DecidableEq

/-- How the CPU resumes from the wait-for-interrupt instruction of `EnterSleep`. -/
inductive Wake
  /-- The wake timer overflowed and `RTC_Handler` ran. -/
  | overflow
  /-- Another interrupt woke the CPU after `e` ticks of the wake timer. -/
  | early (e : Nat)
  deriving DecidableEq

/-- What one call of `Process` receives from outside `EBF_Logic`. -/
structure Env where
  /-- Value returned by `timers.Process(start)` (the timer subsystem is not among the sources). -/
  timersDelay : Nat
  /-- Reading of Arduino's `::millis()` taken in iteration `i` of the polling loop. -/
  millis : Nat → Nat
  /-- The `k`-th reading of Arduino's `::micros()` taken during the call. -/
  micros : Nat → Nat
  /-- How the CPU resumes if the call goes to sleep. -/
  wake : Wake

/-! ## `EBF_Logic` -/

/-- Overwrite cell `i` of an array addressed from its base. -/
def setCell {α : Type} (f : Nat → α) (i : Nat) (v : α) : Nat → α :=
  fun j => if j = i then v else f j

/-- The data members of `EBF_Logic` (`EBF_Logic.h`, lines 76-100). Arrays are
addressed from their base: `pHalIsr k` for `k >= EXTERNAL_NUM_INTERRUPTS` is the
memory that follows the route table, and `pHalInstances k` is cell `k` of the
block allocated in `Init`. Each registry cell holds a driver of its own (registered
drivers are distinct, section 3 of the specification). -/
structure EBF_Logic where
  msgQueue : EBF_MessageQueue
  isRunFromISR : Nat
  pHalIsr : Nat → Option HalPtr
  sleepMode : EBF_SleepMode
  sleepMs : Nat
  microsAddition : Nat
  pHalInstances : Nat → EBF_HalInstance
  halIndex : Nat

/-- The accessor `EBF_Logic::micros()` applied to a reading `hw` of `::micros()`
(`EBF_Logic.h`, lines 52-58). -/
def EBF_Logic.micros (cfg : Config) (s : EBF_Logic) (hw : Nat) : Nat :=
  if cfg.EBF_SLEEP_IMPLEMENTATION then add32 hw s.microsAddition else hw % U32

/-- The accessor `EBF_Logic::millis()` applied to a reading `hw` of `::millis()`
(`EBF_Logic.h`, lines 52-58). -/
def EBF_Logic.millis (cfg : Config) (s : EBF_Logic) (hw : Nat) : Nat :=
  if cfg.EBF_SLEEP_IMPLEMENTATION then add32 hw (s.microsAddition % U32 / 1000) else hw % U32

/-- The loop of `EBF_Logic::Init` that clears the route table (lines 70-73). -/
def EBF_Logic.InitIsr (cfg : Config) (s : EBF_Logic) : EBF_Logic :=
  { s with pHalIsr := fun k => if k < cfg.EXTERNAL_NUM_INTERRUPTS then none else s.pHalIsr k }

/-- The method `EBF_Logic::AddHalInstance` (lines 103-113); `numberOfInstances` is the
value of `EBF_HalInstance::GetNumberOfInstances()`. -/
def EBF_Logic.AddHalInstance (s : EBF_Logic) (numberOfInstances : Nat)
    (instance_ : EBF_HalInstance) : EBF_ERROR_CODE × EBF_Logic :=
  if s.halIndex ≥ numberOfInstances then
    (EBF_INDEX_OUT_OF_BOUNDS, s)
  else
    (EBF_OK, { s with
      pHalInstances := setCell s.pHalInstances s.halIndex instance_
      halIndex := (s.halIndex + 1) % 256 })

/-! ### The polling step of `Process` (lines 128-158) -/

/-- The variables the polling loop updates. -/
structure PollState where
  pHalInstances : Nat → EBF_HalInstance
  delayWanted : Nat
  events : List Event

/-- One iteration of `for (i=0; i<halIndex; i++)` (lines 130-152); `millisAt i` is the
value `this->millis()` returns in iteration `i`. -/
def pollBody (millisAt : Nat → Nat) (st : PollState) (i : Nat) : PollState :=
  let pHal := st.pHalInstances i
  if pHal.GetPollingInterval = EBF_NO_POLLING then
    st
  else
    let ms := millisAt i % U32
    if sub32 ms pHal.GetLastPollMillis > pHal.GetPollingInterval then
      let pHal1 := pHal.SetLastPollMillis ms
      { pHalInstances := setCell st.pHalInstances i pHal1
        events := st.events ++ [Event.halProcess i]
        delayWanted :=
          if pHal1.GetPollingInterval < st.delayWanted then pHal1.GetPollingInterval
          else st.delayWanted }
    else
      let pollWanted := sub32 pHal.GetPollingInterval (sub32 ms pHal.GetLastPollMillis) % U16
      { st with
        delayWanted := if pollWanted < st.delayWanted then pollWanted else st.delayWanted }

/-- The whole loop `for (i=0; i<halIndex; i++)`. -/
def pollLoop (millisAt : Nat → Nat) (halIndex : Nat) (st : PollState) : PollState :=
  (List.range halIndex).foldl (pollBody millisAt) st

/-- The statement `if (delayWanted == 0) delayWanted = 1;` (lines 155-158). -/
def floorDelay (delayWanted : Nat) : Nat :=
  if delayWanted = 0 then 1 else delayWanted

/-- Lines 126-158 of `Process`: the timer minimum `m` is folded with every polled
driver, then floored. `millisAt i` is the value `this->millis()` returns in
iteration `i`. -/
def pollStep (millisAt : Nat → Nat) (m : Nat) (s : EBF_Logic) : PollState :=
  let st := pollLoop millisAt s.halIndex
    { pHalInstances := s.pHalInstances, delayWanted := m % U16, events := [] }
  { st with delayWanted := floorDelay st.delayWanted }

/-! ### Sleep (lines 334-346 and 405-504) -/

/-- The interrupt handler `RTC_Handler` (lines 334-346): it sets the counter to zero. -/
def RTC_Handler (_count : Nat) : Nat := 0

/-- The value of `RTC->MODE0.COUNT.reg` when the CPU resumes, the counter having
been started at `count`. -/
def rtcOnResume (count : Nat) : Wake → Nat
  | Wake.overflow => RTC_Handler count
  | Wake.early e => add32 count e

/-- The method `EBF_Logic::EnterSleep` (lines 405-504). -/
def EBF_Logic.EnterSleep (s : EBF_Logic) (msSleep : Nat) (wake : Wake) :
    EBF_ERROR_CODE × EBF_Logic :=
  if s.sleepMode = EBF_NO_SLEEP then
    (EBF_OK, s)
  else
    let count := sub32 (U32 - 1) (msSleep % U16)
    let s1 := { s with sleepMs := msSleep % U16 }
    let timerCnt := rtcOnResume count wake
    if timerCnt = 0 then
      (EBF_OK, { s1 with microsAddition := add32 s1.microsAddition (mul32 s1.sleepMs 1000) })
    else
      (EBF_OK, { s1 with
        microsAddition :=
          add32 s1.microsAddition (mul32 (sub32 s1.sleepMs (sub32 (U32 - 1) timerCnt)) 1000) })

/-! ### The busy-wait loop of `Process` (lines 175-199) -/

/-- The variables the busy-wait loop updates; `reads` counts the readings of
`::micros()` taken so far in this call of `Process`. -/
structure WaitState where
  msgQueue : EBF_MessageQueue
  delayWanted : Nat
  start : Nat
  reads : Nat
  events : List Event

/-- The inner loop
`while (delayWanted > 0 && (this->micros() - start) >= 1000) { delayWanted--; start += 1000; }`
(lines 195-198); `microsAt k` is the value `this->micros()` returns at reading `k`.
The result is the delay left, `start` and the number of readings taken. -/
def catchUp (microsAt : Nat → Nat) : Nat → Nat → Nat → Nat × Nat × Nat
  | 0, start, reads => (0, start, reads)
  | d + 1, start, reads =>
    if sub32 (microsAt reads) start ≥ 1000 then
      catchUp microsAt d (add32 start 1000) (reads + 1)
    else
      (d + 1, start, reads + 1)

/-- The message part of one busy-wait iteration (lines 179-194). -/
def drainOne (cfg : Config) (q : EBF_MessageQueue) : EBF_MessageQueue × List Event :=
  if cfg.EBF_USE_INTERRUPTS then
    if q.GetMessagesNumber > 0 then
      match q.GetMessage with
      | (rc, msg, q1) =>
        if rc = EBF_OK then (q1, [Event.getMessage, Event.msgProcess msg.param1])
        else (q1, [Event.getMessage])
    else (q, [])
  else (q, [])

/-- One iteration of the body of `while (delayWanted > 0) { ... }` (lines 177-198):
`yield()`, at most one message, then the inner loop. -/
def waitBody (cfg : Config) (microsAt : Nat → Nat) (w : WaitState) : WaitState :=
  let (q, evs) := drainOne cfg w.msgQueue
  let (d, start, reads) := catchUp microsAt w.delayWanted w.start w.reads
  { msgQueue := q, delayWanted := d, start := start, reads := reads
    events := w.events ++ [Event.yield] ++ evs }

/-- The loop `while (delayWanted > 0) { ... }` (lines 176-199), cut off after `fuel`
iterations; the loop has ended exactly when the result has `delayWanted = 0`. -/
def busyWait (cfg : Config) (microsAt : Nat → Nat) : Nat → WaitState → WaitState
  | 0, w => w
  | fuel + 1, w =>
    if w.delayWanted = 0 then w
    else busyWait cfg microsAt fuel (waitBody cfg microsAt w)

/-! ### `Process` (lines 115-202) -/

/-- Outcome of one call of `Process`. -/
structure ProcessResult where
  /-- The returned code; `none` when the busy-wait has not ended within the fuel. -/
  rc : Option EBF_ERROR_CODE
  /-- The run-time state after the call. -/
  logic : EBF_Logic
  /-- The local `delayWanted` after line 158, before sleeping or busy-waiting. -/
  delayWanted : Nat
  /-- The calls made, in order. -/
  events : List Event
  /-- Number of readings of `::micros()` taken. -/
  reads : Nat

/-- The method `EBF_Logic::Process` (lines 115-202); the busy-wait loop runs for at
most `fuel` iterations. -/
def EBF_Logic.Process (cfg : Config) (env : Env) (fuel : Nat) (s : EBF_Logic) : ProcessResult :=
  let start := s.micros cfg (env.micros 0)
  let st := pollStep (fun i => s.millis cfg (env.millis i)) env.timersDelay s
  let s1 := { s with pHalInstances := st.pHalInstances }
  if cfg.EBF_SLEEP_IMPLEMENTATION ∧ st.delayWanted > 1 ∧ s.sleepMode ≠ EBF_NO_SLEEP then
    { rc := some EBF_OK
      logic := (s1.EnterSleep st.delayWanted env.wake).2
      delayWanted := st.delayWanted
      events := st.events ++ [Event.enterSleep st.delayWanted]
      reads := 1 }
  else
    let w := busyWait cfg (fun k => s.micros cfg (env.micros k)) fuel
      { msgQueue := s.msgQueue, delayWanted := st.delayWanted, start := start, reads := 1
        events := st.events }
    { rc := if w.delayWanted = 0 then some EBF_OK else none
      logic := { s1 with msgQueue := w.msgQueue }
      delayWanted := st.delayWanted
      events := w.events
      reads := w.reads }

/-! ### Interrupt routing (lines 218-291) -/

/-- The method `EBF_Logic::AttachInterrupt` (lines 218-281). The `switch` has a
`case k` for every `k < EXTERNAL_NUM_INTERRUPTS` (at most 8 on AVR). -/
def EBF_Logic.AttachInterrupt (cfg : Config) (s : EBF_Logic) (interruptNumber : Nat)
    (pHalInstance : Option HalPtr) (mode : Nat) : EBF_ERROR_CODE × EBF_Logic × List Event :=
  if interruptNumber > cfg.EXTERNAL_NUM_INTERRUPTS then
    (EBF_INDEX_OUT_OF_BOUNDS, s, [])
  else
    (EBF_OK, { s with pHalIsr := setCell s.pHalIsr interruptNumber pHalInstance },
      if interruptNumber < cfg.EXTERNAL_NUM_INTERRUPTS then
        [Event.attachInterrupt interruptNumber mode]
      else [])

/-- The method `EBF_Logic::HandleIsr` (lines 283-291); `callback p` is what the
bound driver's `ProcessCallback()` does to the run-time state. -/
def EBF_Logic.HandleIsr (callback : HalPtr → EBF_Logic → EBF_Logic) (s : EBF_Logic)
    (interruptNumber : Nat) : EBF_Logic × List Event :=
  match s.pHalIsr interruptNumber with
  | none => (s, [])
  | some p =>
    let s1 := { s with isRunFromISR := 1 }
    let s2 := callback p s1
    ({ s2 with isRunFromISR := 0 }, [Event.processCallback p s1.isRunFromISR])

/-! ## Repeated `Process` under a simulated clock -/

/-- The registry slots polled by a call, read off its events. -/
def pollsOf : List Event → List Nat
  | [] => []
  | Event.halProcess i :: evs => i :: pollsOf evs
  | _ :: evs => pollsOf evs

/-- A run-time under a simulated clock: the run-time state, the simulated time
in milliseconds, the polls made so far as pairs (time, slot), latest first, and
a flag telling that all calls returned. -/
structure Sim where
  logic : EBF_Logic
  now : Nat
  log : List (Nat × Nat)
  /-- Whether every call of `Process` so far has returned `EBF_OK`. -/
  ok : Bool

/-- The environment of a call of `Process` that starts at simulated time `now`
(milliseconds): callbacks take no time, so every `::millis()` reading of the
polling loop is `now` and the first `::micros()` reading is `1000 * now`; in the
busy-wait one millisecond passes between two readings of `::micros()`. -/
def simEnv (now m : Nat) : Env :=
  { timersDelay := m
    millis := fun _ => now % U32
    micros := fun k => (1000 * (now + k)) % U32
    wake := Wake.overflow }

/-- One call of `Process` at simulated time `sim.now`; the time afterwards is
that of the last clock reading the call took (the simulation is for runs that
busy-wait, sleep being off). -/
def simStep (cfg : Config) (fuel : Nat) (m : Nat) (sim : Sim) : Sim :=
  let r := sim.logic.Process cfg (simEnv sim.now m) fuel
  { logic := r.logic
    now := sim.now + (r.reads - 1)
    log := ((pollsOf r.events).map (fun i => (sim.now, i))).reverse ++ sim.log
    ok := sim.ok && decide (r.rc = some EBF_OK) }

/-- The simulation after `n` calls of `Process`; `timerMin k` is what the timer
subsystem returns in call `k`. -/
def simRun (cfg : Config) (fuel : Nat) (timerMin : Nat → Nat) (sim : Sim) : Nat → Sim
  | 0 => sim
  | n + 1 => simStep cfg fuel (timerMin n) (simRun cfg fuel timerMin sim n)

/-- Calls of `Process` repeated while the simulated time is below `horizon`
(at most `n` calls), with no timer pending. -/
def simUntil (cfg : Config) (fuel : Nat) (horizon : Nat) : Nat → Sim → Sim
  | 0, sim => sim
  | n + 1, sim =>
    if sim.now < horizon then simUntil cfg fuel horizon n (simStep cfg fuel EBF_NO_POLLING sim)
    else sim

/-- The simulated times at which slot `i` was polled, latest first. -/
def pollTimes (sim : Sim) (i : Nat) : List Nat :=
  (sim.log.filter (fun e => e.2 = i)).map (fun e => e.1)

/-- How often slot `i` was polled. -/
def pollCount (sim : Sim) (i : Nat) : Nat :=
  (pollTimes sim i).length

/-- The run-time of scenario 1: driver A (interval 10 ms) in slot 0, driver B
(interval 50 ms) in slot 1, both last polled at 0, empty queue, no sleep. -/
def scenarioLogic : EBF_Logic :=
  { msgQueue := { capacity := 4, entries := [] }
    isRunFromISR := 0
    pHalIsr := fun _ => none
    sleepMode := EBF_NO_SLEEP
    sleepMs := 0
    microsAddition := 0
    pHalInstances := fun i =>
      if i = 0 then { pollIntervalMs := 10, lastPollMillis := 0 }
      else if i = 1 then { pollIntervalMs := 50, lastPollMillis := 0 }
      else { pollIntervalMs := EBF_NO_POLLING, lastPollMillis := 0 }
    halIndex := 2 }

/-- Scenario 1 at simulated time 0. -/
def scenarioSim : Sim :=
  { logic := scenarioLogic, now := 0, log := [], ok := true }

/-- A build with interrupts and without sleep support (AVR). -/
def cfgAvr : Config :=
  { EBF_USE_INTERRUPTS := true, EBF_SLEEP_IMPLEMENTATION := false, EXTERNAL_NUM_INTERRUPTS := 2 }

/-- A build with sleep support and without interrupts (SAMD). -/
def cfgSamd : Config :=
  { EBF_USE_INTERRUPTS := false, EBF_SLEEP_IMPLEMENTATION := true, EXTERNAL_NUM_INTERRUPTS := 0 }

/-! ## The wanted delay as the specification words it -/

/-- Milliseconds elapsed on the 32-bit clock between the last poll of `h` and the
clock reading `ms`. -/
def elapsedSince (ms : Nat) (h : EBF_HalInstance) : Nat :=
  sub32 ms h.GetLastPollMillis

/-- The poll-minimum of a driver: its interval if it was polled in this call,
otherwise its interval minus the milliseconds elapsed since its last poll. -/
def pollMinimum (polled : Bool) (h : EBF_HalInstance) (ms : Nat) : Nat :=
  if polled then h.GetPollingInterval else h.GetPollingInterval - elapsedSince ms h

/-- The value `max(1, min(m, all poll-minimums))`. -/
def wantedDelaySpec (m : Nat) (pollMinimums : List Nat) : Nat :=
  max 1 (pollMinimums.foldl min m)

/-- Whether iteration `i` of the polling loop polls the driver of slot `i` of `tbl`. -/
def isPolled (millisAt : Nat → Nat) (tbl : Nat → EBF_HalInstance) (i : Nat) : Bool :=
  decide ((tbl i).GetPollingInterval ≠ EBF_NO_POLLING ∧
    sub32 (millisAt i % U32) (tbl i).GetLastPollMillis > (tbl i).GetPollingInterval)

/-- Whether the driver of slot `i` takes part in polling at all. -/
def isEnabled (tbl : Nat → EBF_HalInstance) (i : Nat) : Bool :=
  decide ((tbl i).GetPollingInterval ≠ EBF_NO_POLLING)

/-- What iteration `i` folds into `delayWanted`. -/
def contribution (millisAt : Nat → Nat) (tbl : Nat → EBF_HalInstance) (i : Nat) : Nat :=
  if sub32 (millisAt i % U32) (tbl i).GetLastPollMillis > (tbl i).GetPollingInterval then
    (tbl i).GetPollingInterval
  else
    sub32 (tbl i).GetPollingInterval (sub32 (millisAt i % U32) (tbl i).GetLastPollMillis) % U16

/-- Scenario 1 with light sleep selected and no drift accumulated. -/
def lightLogic : EBF_Logic :=
  { scenarioLogic with sleepMode := EBF_SLEEP_LIGHT }

/-- A run-time that has slept for 4294967 ms in all: the drift accumulator holds
4294967000 microseconds, 296 below the range of `unsigned long`. -/
def driftLogic : EBF_Logic :=
  { scenarioLogic with sleepMode := EBF_SLEEP_LIGHT, microsAddition := 4294967000 }

/-- Take cell `i` out of an array: the cells behind it move down by one. -/
def dropCell {α : Type} (f : Nat → α) (i : Nat) : Nat → α :=
  fun j => if j < i then f j else f (j + 1)

/-- The run-time `s` with the driver of slot `i` taken out of the registry. -/
def EBF_Logic.withoutHal (s : EBF_Logic) (i : Nat) : EBF_Logic :=
  { s with pHalInstances := dropCell s.pHalInstances i, halIndex := s.halIndex - 1 }

/-- The environment `env` without the clock reading of iteration `i` of the polling loop. -/
def Env.withoutHal (env : Env) (i : Nat) : Env :=
  { env with millis := dropCell env.millis i }

/-- The calls a busy-wait iteration makes. -/
def isWaitEvent : Event → Bool
  | Event.yield => true
  | Event.getMessage => true
  | Event.msgProcess _ => true
  | _ => false

/-- Two consecutive polls of a driver with interval `p`, the later one first: they
are more than `p` and at most `p + 1` milliseconds apart. -/
def pollGap (p : Nat) (later earlier : Nat) : Prop :=
  earlier + p < later ∧ later ≤ earlier + p + 1

/-- What repeated calls of `Process` under the simulated clock maintain for the
driver of slot `i`, whose interval is `p`: no sleep, the slot is registered, its
interval stays `p`, every call so far has returned, consecutive polls obey
`pollGap`, and since the latest poll at `L` at most `p + 1` milliseconds have
passed, `L` being what the driver holds as its last-poll timestamp. -/
def PollInv (cfg : Config) (i p : Nat) (sim : Sim) : Prop :=
  (cfg.EBF_SLEEP_IMPLEMENTATION = false ∨ sim.logic.sleepMode = EBF_NO_SLEEP) ∧
  i < sim.logic.halIndex ∧
  (sim.logic.pHalInstances i).GetPollingInterval = p ∧
  sim.ok = true ∧
  List.Chain' (pollGap p) (pollTimes sim i) ∧
  ∀ L, (pollTimes sim i).head? = some L →
    L ≤ sim.now ∧ sim.now ≤ L + p + 1 ∧
    (sim.logic.pHalInstances i).GetLastPollMillis = sim.logic.millis cfg (L % U32)

/-! ## The busy-wait loop: time and messages -/

/-- What the busy-wait loop keeps while it waits for the delay `D`: `t k` being the
true time in microseconds of clock reading `k` and `c` the drift correction,
`start` has been advanced by 1000 for every millisecond taken off the delay, and
the latest reading taken shows that this much time has passed since reading 0. -/
def WaitInv (t : Nat → Nat) (c D : Nat) (delayWanted start reads : Nat) : Prop :=
  delayWanted ≤ D ∧ 1 ≤ reads ∧
  start = (t 0 + c + 1000 * (D - delayWanted)) % U32 ∧
  t 0 + 1000 * (D - delayWanted) ≤ t (reads - 1)

/-- The drivers named in the messages for which `pHalInstance->Process()` was called,
in the order of the calls. -/
def dispatchedOf : List Event → List Nat
  | [] => []
  | Event.msgProcess p :: evs => p :: dispatchedOf evs
  | _ :: evs => dispatchedOf evs

/-- Number of calls of `msgQueue.GetMessage(msg)`. -/
def takenCount : List Event → Nat
  | [] => 0
  | Event.getMessage :: evs => takenCount evs + 1
  | _ :: evs => takenCount evs

/-- Number of calls of `yield()`, one per iteration of the busy-wait loop. -/
def yieldCount : List Event → Nat
  | [] => 0
  | Event.yield :: evs => yieldCount evs + 1
  | _ :: evs => yieldCount evs

/-- A run-time with two messages pending, for drivers 7 and 9, in the state of scenario 1. -/
def queuedLogic : EBF_Logic :=
  { scenarioLogic with
    msgQueue := { capacity := 4, entries := [{ param1 := 7 }, { param1 := 9 }] } }

/-- A clock on which half a millisecond passes between two readings of `::micros()`,
read at time 0 by the polling loop. -/
def slowEnv : Env :=
  { timersDelay := EBF_NO_POLLING
    millis := fun _ => 0
    micros := fun k => 500 * k
    wake := Wake.overflow }

/-! ## The polling loop -/

theorem min_fold_step (a b : Nat) : (if b < a then b else a) = min a b := by
  simp only [Nat.min_def]
  split <;> split <;> omega

theorem pollLoop_succ (millisAt : Nat → Nat) (n : Nat) (st : PollState) :
    pollLoop millisAt (n + 1) st = pollBody millisAt (pollLoop millisAt n st) n := by
  simp [pollLoop, List.range_succ, List.foldl_append]

theorem pollLoop_table (millisAt : Nat → Nat) (st : PollState) (n : Nat) :
    (pollLoop millisAt n st).pHalInstances = fun j =>
      if j < n ∧ isPolled millisAt st.pHalInstances j = true then
        (st.pHalInstances j).SetLastPollMillis (millisAt j % U32)
      else st.pHalInstances j := by
  induction n with
  | zero => simp [pollLoop]
  | succ n ih =>
    rw [pollLoop_succ]
    funext j
    have hn : (pollLoop millisAt n st).pHalInstances n = st.pHalInstances n := by
      rw [ih]; simp
    unfold pollBody
    simp only [hn]
    by_cases h1 : (st.pHalInstances n).GetPollingInterval = EBF_NO_POLLING
    · simp only [h1, if_true, ih]
      by_cases hj : j = n
      · subst hj; simp [isPolled, h1]
      · have : (j < n + 1) = (j < n) := by
          apply propext; omega
        simp only [this]
    · simp only [h1, if_false]
      by_cases h2 : sub32 (millisAt n % U32) (st.pHalInstances n).GetLastPollMillis
          > (st.pHalInstances n).GetPollingInterval
      · simp only [h2, if_true, setCell, ih]
        by_cases hj : j = n
        · subst hj; simp [isPolled, h1, h2]
        · have : (j < n + 1) = (j < n) := by
            apply propext; omega
          simp only [hj, if_false, this]
      · simp only [h2, if_false, ih]
        by_cases hj : j = n
        · subst hj; simp [isPolled, h1, h2]
        · have : (j < n + 1) = (j < n) := by
            apply propext; omega
          simp only [this]

theorem pollLoop_cell (millisAt : Nat → Nat) (st : PollState) (n : Nat) :
    (pollLoop millisAt n st).pHalInstances n = st.pHalInstances n := by
  rw [pollLoop_table]; simp

theorem pollLoop_events (millisAt : Nat → Nat) (st : PollState) (n : Nat) :
    (pollLoop millisAt n st).events = st.events ++
      ((List.range n).filter (isPolled millisAt st.pHalInstances)).map Event.halProcess := by
  induction n with
  | zero => simp [pollLoop]
  | succ n ih =>
    rw [pollLoop_succ]
    unfold pollBody
    simp only [pollLoop_cell]
    by_cases h1 : (st.pHalInstances n).GetPollingInterval = EBF_NO_POLLING
    · simp [h1, ih, List.range_succ, List.filter_append, isPolled]
    · by_cases h2 : sub32 (millisAt n % U32) (st.pHalInstances n).GetLastPollMillis
          > (st.pHalInstances n).GetPollingInterval
      · simp [h1, h2, ih, List.range_succ, List.filter_append, isPolled]
      · simp [h1, h2, ih, List.range_succ, List.filter_append, isPolled]

theorem pollLoop_delay (millisAt : Nat → Nat) (st : PollState) (n : Nat) :
    (pollLoop millisAt n st).delayWanted =
      (((List.range n).filter (isEnabled st.pHalInstances)).map
        (contribution millisAt st.pHalInstances)).foldl min st.delayWanted := by
  induction n with
  | zero => simp [pollLoop]
  | succ n ih =>
    rw [pollLoop_succ]
    unfold pollBody
    simp only [pollLoop_cell]
    by_cases h1 : (st.pHalInstances n).GetPollingInterval = EBF_NO_POLLING
    · have hE : isEnabled st.pHalInstances n = false := by simp [isEnabled, h1]
      simp [h1, ih, List.range_succ, List.filter_append, hE]
    · have hE : isEnabled st.pHalInstances n = true := by simp [isEnabled, h1]
      by_cases h2 : sub32 (millisAt n % U32) (st.pHalInstances n).GetLastPollMillis
          > (st.pHalInstances n).GetPollingInterval
      · have hC : contribution millisAt st.pHalInstances n
            = (st.pHalInstances n).GetPollingInterval := by
          simp [contribution, h2]
        have hS : ((st.pHalInstances n).SetLastPollMillis (millisAt n % U32)).GetPollingInterval
            = (st.pHalInstances n).GetPollingInterval := rfl
        simp [h1, h2, ih, List.range_succ, List.filter_append, hE, hC, hS, min_fold_step]
      · have hC : contribution millisAt st.pHalInstances n
            = sub32 (st.pHalInstances n).GetPollingInterval
                (sub32 (millisAt n % U32) (st.pHalInstances n).GetLastPollMillis) % U16 := by
          simp [contribution, h2]
        simp [h1, h2, ih, List.range_succ, List.filter_append, hE, hC, min_fold_step]

/-! ## Events of `Process` -/

theorem pollsOf_append (a b : List Event) : pollsOf (a ++ b) = pollsOf a ++ pollsOf b := by
  induction a with
  | nil => simp [pollsOf]
  | cons e a ih => cases e <;> simp [pollsOf, ih]

theorem mem_pollsOf (i : Nat) (evs : List Event) :
    i ∈ pollsOf evs ↔ Event.halProcess i ∈ evs := by
  induction evs with
  | nil => simp [pollsOf]
  | cons e evs ih => cases e <;> simp [pollsOf, ih]

theorem pollsOf_map_halProcess (l : List Nat) : pollsOf (l.map Event.halProcess) = l := by
  induction l with
  | nil => simp [pollsOf]
  | cons a l ih => simp [pollsOf, ih]

theorem pollsOf_drainOne (cfg : Config) (q : EBF_MessageQueue) :
    pollsOf (drainOne cfg q).2 = [] := by
  unfold drainOne
  split
  · split
    · split
      split <;> simp [pollsOf]
    · simp [pollsOf]
  · simp [pollsOf]

theorem waitBody_polls (cfg : Config) (microsAt : Nat → Nat) (w : WaitState) :
    pollsOf (waitBody cfg microsAt w).events = pollsOf w.events := by
  simp [waitBody, pollsOf_append, pollsOf, pollsOf_drainOne]

theorem busyWait_polls (cfg : Config) (microsAt : Nat → Nat) (fuel : Nat) :
    ∀ w : WaitState, pollsOf (busyWait cfg microsAt fuel w).events = pollsOf w.events := by
  induction fuel with
  | zero => intro w; rfl
  | succ fuel ih =>
    intro w
    unfold busyWait
    split
    · rfl
    · rw [ih, waitBody_polls]

theorem pollStep_events (millisAt : Nat → Nat) (m : Nat) (s : EBF_Logic) :
    (pollStep millisAt m s).events =
      ((List.range s.halIndex).filter (isPolled millisAt s.pHalInstances)).map
        Event.halProcess := by
  simp [pollStep, pollLoop_events]

theorem pollStep_table (millisAt : Nat → Nat) (m : Nat) (s : EBF_Logic) :
    (pollStep millisAt m s).pHalInstances = fun j =>
      if j < s.halIndex ∧ isPolled millisAt s.pHalInstances j = true then
        (s.pHalInstances j).SetLastPollMillis (millisAt j % U32)
      else s.pHalInstances j := by
  simp [pollStep, pollLoop_table]

theorem pollStep_delay (millisAt : Nat → Nat) (m : Nat) (s : EBF_Logic) :
    (pollStep millisAt m s).delayWanted =
      floorDelay ((((List.range s.halIndex).filter (isEnabled s.pHalInstances)).map
        (contribution millisAt s.pHalInstances)).foldl min (m % U16)) := by
  simp [pollStep, pollLoop_delay]

theorem Process_delayWanted (cfg : Config) (env : Env) (fuel : Nat) (s : EBF_Logic) :
    (s.Process cfg env fuel).delayWanted =
      (pollStep (fun i => s.millis cfg (env.millis i)) env.timersDelay s).delayWanted := by
  unfold EBF_Logic.Process
  simp only
  split <;> rfl

theorem EnterSleep_table (s : EBF_Logic) (d : Nat) (wake : Wake) :
    (s.EnterSleep d wake).2.pHalInstances = s.pHalInstances := by
  unfold EBF_Logic.EnterSleep
  split
  · rfl
  · simp only
    split <;> rfl

theorem Process_table (cfg : Config) (env : Env) (fuel : Nat) (s : EBF_Logic) :
    (s.Process cfg env fuel).logic.pHalInstances =
      (pollStep (fun i => s.millis cfg (env.millis i)) env.timersDelay s).pHalInstances := by
  unfold EBF_Logic.Process
  simp only
  split
  · rw [EnterSleep_table]
  · rfl

theorem Process_polls (cfg : Config) (env : Env) (fuel : Nat) (s : EBF_Logic) :
    pollsOf (s.Process cfg env fuel).events =
      (List.range s.halIndex).filter
        (isPolled (fun i => s.millis cfg (env.millis i)) s.pHalInstances) := by
  unfold EBF_Logic.Process
  simp only
  split
  · simp [pollsOf_append, pollsOf, pollStep_events, pollsOf_map_halProcess]
  · simp only
    rw [busyWait_polls]
    simp [pollStep_events, pollsOf_map_halProcess]

theorem drainOne_events (cfg : Config) (q : EBF_MessageQueue) :
    ∀ e ∈ (drainOne cfg q).2, isWaitEvent e = true := by
  unfold drainOne
  split
  · split
    · split
      split <;> simp [isWaitEvent]
    · simp
  · simp

theorem waitBody_events (cfg : Config) (microsAt : Nat → Nat) (w : WaitState) :
    (waitBody cfg microsAt w).events = w.events ++ Event.yield :: (drainOne cfg w.msgQueue).2 := by
  simp [waitBody]

theorem busyWait_events (cfg : Config) (microsAt : Nat → Nat) (fuel : Nat) :
    ∀ w : WaitState, ∃ extra, (busyWait cfg microsAt fuel w).events = w.events ++ extra ∧
      (∀ e ∈ extra, isWaitEvent e = true) ∧
      (0 < fuel → w.delayWanted ≠ 0 → ∃ rest, extra = Event.yield :: rest) := by
  induction fuel with
  | zero =>
    intro w
    exact ⟨[], by simp [busyWait], by simp, by simp⟩
  | succ fuel ih =>
    intro w
    unfold busyWait
    split
    · rename_i h0
      exact ⟨[], by simp, by simp, fun _ h => absurd h0 h⟩
    · obtain ⟨extra, h1, h2, -⟩ := ih (waitBody cfg microsAt w)
      refine ⟨Event.yield :: (drainOne cfg w.msgQueue).2 ++ extra, ?_, ?_, ?_⟩
      · rw [h1, waitBody_events]; simp
      · intro e he
        simp only [List.cons_append, List.mem_cons, List.mem_append] at he
        rcases he with he | he | he
        · subst he; rfl
        · exact drainOne_events cfg _ e he
        · exact h2 e he
      · intro _ _
        exact ⟨_, rfl⟩

theorem pollStep_events_poll (millisAt : Nat → Nat) (m : Nat) (s : EBF_Logic) :
    ∀ e ∈ (pollStep millisAt m s).events, ∃ i, e = Event.halProcess i := by
  rw [pollStep_events]
  intro e he
  rw [List.mem_map] at he
  obtain ⟨i, -, rfl⟩ := he
  exact ⟨i, rfl⟩

theorem EnterSleep_msgQueue (s : EBF_Logic) (d : Nat) (wake : Wake) :
    (s.EnterSleep d wake).2.msgQueue = s.msgQueue := by
  unfold EBF_Logic.EnterSleep
  split
  · rfl
  · simp only
    split <;> rfl

theorem Process_sleep (cfg : Config) (env : Env) (fuel : Nat) (s : EBF_Logic)
    (h : cfg.EBF_SLEEP_IMPLEMENTATION = true ∧
      (pollStep (fun i => s.millis cfg (env.millis i)) env.timersDelay s).delayWanted > 1 ∧
      s.sleepMode ≠ EBF_NO_SLEEP) :
    s.Process cfg env fuel =
      { rc := some EBF_OK
        logic := (({ s with pHalInstances :=
            (pollStep (fun i => s.millis cfg (env.millis i)) env.timersDelay s).pHalInstances }
          : EBF_Logic).EnterSleep
            (pollStep (fun i => s.millis cfg (env.millis i)) env.timersDelay s).delayWanted
            env.wake).2
        delayWanted :=
          (pollStep (fun i => s.millis cfg (env.millis i)) env.timersDelay s).delayWanted
        events := (pollStep (fun i => s.millis cfg (env.millis i)) env.timersDelay s).events ++
          [Event.enterSleep
            (pollStep (fun i => s.millis cfg (env.millis i)) env.timersDelay s).delayWanted]
        reads := 1 } := by
  unfold EBF_Logic.Process
  dsimp only
  rw [if_pos h]

theorem Process_wait (cfg : Config) (env : Env) (fuel : Nat) (s : EBF_Logic)
    (h : ¬ (cfg.EBF_SLEEP_IMPLEMENTATION = true ∧
      (pollStep (fun i => s.millis cfg (env.millis i)) env.timersDelay s).delayWanted > 1 ∧
      s.sleepMode ≠ EBF_NO_SLEEP)) :
    s.Process cfg env fuel =
      { rc :=
          if (busyWait cfg (fun k => s.micros cfg (env.micros k)) fuel
            { msgQueue := s.msgQueue
              delayWanted :=
                (pollStep (fun i => s.millis cfg (env.millis i)) env.timersDelay s).delayWanted
              start := s.micros cfg (env.micros 0), reads := 1
              events :=
                (pollStep (fun i => s.millis cfg (env.millis i)) env.timersDelay s).events
            }).delayWanted = 0 then some EBF_OK else none
        logic := { s with
          pHalInstances :=
            (pollStep (fun i => s.millis cfg (env.millis i)) env.timersDelay s).pHalInstances
          msgQueue := (busyWait cfg (fun k => s.micros cfg (env.micros k)) fuel
            { msgQueue := s.msgQueue
              delayWanted :=
                (pollStep (fun i => s.millis cfg (env.millis i)) env.timersDelay s).delayWanted
              start := s.micros cfg (env.micros 0), reads := 1
              events :=
                (pollStep (fun i => s.millis cfg (env.millis i)) env.timersDelay s).events
            }).msgQueue }
        delayWanted :=
          (pollStep (fun i => s.millis cfg (env.millis i)) env.timersDelay s).delayWanted
        events := (busyWait cfg (fun k => s.micros cfg (env.micros k)) fuel
            { msgQueue := s.msgQueue
              delayWanted :=
                (pollStep (fun i => s.millis cfg (env.millis i)) env.timersDelay s).delayWanted
              start := s.micros cfg (env.micros 0), reads := 1
              events :=
                (pollStep (fun i => s.millis cfg (env.millis i)) env.timersDelay s).events
            }).events
        reads := (busyWait cfg (fun k => s.micros cfg (env.micros k)) fuel
            { msgQueue := s.msgQueue
              delayWanted :=
                (pollStep (fun i => s.millis cfg (env.millis i)) env.timersDelay s).delayWanted
              start := s.micros cfg (env.micros 0), reads := 1
              events :=
                (pollStep (fun i => s.millis cfg (env.millis i)) env.timersDelay s).events
            }).reads } := by
  unfold EBF_Logic.Process
  dsimp only
  rw [if_neg h]

/-! ## The wanted delay -/

theorem millis_lt (cfg : Config) (s : EBF_Logic) (hw : Nat) : s.millis cfg hw < U32 := by
  unfold EBF_Logic.millis add32 U32
  split <;> omega

theorem micros_lt (cfg : Config) (s : EBF_Logic) (hw : Nat) : s.micros cfg hw < U32 := by
  unfold EBF_Logic.micros add32 U32
  split <;> omega

theorem contribution_eq (millisAt : Nat → Nat) (tbl : Nat → EBF_HalInstance) (i : Nat)
    (hms : millisAt i < U32) :
    contribution millisAt tbl i =
      pollMinimum (decide (sub32 (millisAt i) (tbl i).GetLastPollMillis
        > (tbl i).GetPollingInterval)) (tbl i) (millisAt i) := by
  have h16 : (tbl i).GetPollingInterval < 65536 := by
    unfold EBF_HalInstance.GetPollingInterval U16; omega
  have hm : millisAt i % U32 = millisAt i := Nat.mod_eq_of_lt hms
  unfold contribution pollMinimum elapsedSince
  rw [hm]
  by_cases h : sub32 (millisAt i) (tbl i).GetLastPollMillis > (tbl i).GetPollingInterval
  · simp [h]
  · simp only [h, if_false, decide_False, Bool.false_eq_true]
    generalize sub32 (millisAt i) (tbl i).GetLastPollMillis = e at h
    generalize (tbl i).GetPollingInterval = p at h h16
    unfold sub32 U32 U16
    omega

/-- C1. For every run-time state, timer minimum and clock readings, the wanted delay
that `Process` computes before it sleeps or busy-waits is
`max(1, min(m, poll-minimums))`, the minimum ranging over the registered drivers
whose interval is not `EBF_NO_POLLING`; a driver's poll-minimum is its interval if
`Process` polled it in this call, else its interval minus the milliseconds elapsed
(on the 32-bit clock) since its last poll. -/
theorem C1_process_wanted_delay (cfg : Config) (env : Env) (fuel : Nat) (s : EBF_Logic) :
    (s.Process cfg env fuel).delayWanted =
      wantedDelaySpec (env.timersDelay % U16)
        (((List.range s.halIndex).filter
            (fun i => decide ((s.pHalInstances i).GetPollingInterval ≠ EBF_NO_POLLING))).map
          (fun i => pollMinimum (decide (Event.halProcess i ∈ (s.Process cfg env fuel).events))
            (s.pHalInstances i) (s.millis cfg (env.millis i)))) := by
  rw [Process_delayWanted, pollStep_delay]
  have hmap : ((List.range s.halIndex).filter (isEnabled s.pHalInstances)).map
        (contribution (fun i => s.millis cfg (env.millis i)) s.pHalInstances) =
      ((List.range s.halIndex).filter
            (fun i => decide ((s.pHalInstances i).GetPollingInterval ≠ EBF_NO_POLLING))).map
          (fun i => pollMinimum (decide (Event.halProcess i ∈ (s.Process cfg env fuel).events))
            (s.pHalInstances i) (s.millis cfg (env.millis i))) := by
    apply List.map_congr_left
    intro i hi
    rw [List.mem_filter] at hi
    obtain ⟨hr, he⟩ := hi
    rw [List.mem_range] at hr
    simp only [isEnabled, decide_eq_true_eq] at he
    refine (contribution_eq (fun i => s.millis cfg (env.millis i)) s.pHalInstances i
      (millis_lt cfg s _)).trans ?_
    have hm : s.millis cfg (env.millis i) % U32 = s.millis cfg (env.millis i) :=
      Nat.mod_eq_of_lt (millis_lt cfg s _)
    have hiff : Event.halProcess i ∈ (s.Process cfg env fuel).events ↔
        sub32 (s.millis cfg (env.millis i)) (s.pHalInstances i).GetLastPollMillis
          > (s.pHalInstances i).GetPollingInterval := by
      rw [← mem_pollsOf, Process_polls]
      simp only [List.mem_filter, List.mem_range, isPolled, decide_eq_true_eq]
      rw [hm]
      simp [hr, he]
    congr 1
    exact decide_eq_decide.mpr hiff.symm
  rw [hmap]
  unfold wantedDelaySpec floorDelay
  split <;> omega

/-! ## Interrupt routing -/

theorem AttachInterrupt_above (cfg : Config) (s : EBF_Logic) (line : Nat)
    (p : Option HalPtr) (mode : Nat) (h : cfg.EXTERNAL_NUM_INTERRUPTS < line) :
    s.AttachInterrupt cfg line p mode = (EBF_INDEX_OUT_OF_BOUNDS, s, []) := by
  unfold EBF_Logic.AttachInterrupt
  simp [h]

/-- C2. The line id `EXTERNAL_NUM_INTERRUPTS`, the first that is not an index of the
route table, is not rejected: `AttachInterrupt` returns `EBF_OK`, makes no hardware
call, and writes the driver into the cell behind the table. With two interrupt
lines (ATmega328P) line 2 is accepted, the cell `pHalIsr[2]` changes from
`NULL` to the driver, and a later `HandleIsr(2)` calls that driver back. -/
theorem C2_attachInterrupt_accepts_first_line_out_of_range :
    (∀ (cfg : Config) (s : EBF_Logic) (p : Option HalPtr) (mode : Nat),
      (s.AttachInterrupt cfg cfg.EXTERNAL_NUM_INTERRUPTS p mode).1 = EBF_OK ∧
      (s.AttachInterrupt cfg cfg.EXTERNAL_NUM_INTERRUPTS p mode).2.1.pHalIsr
        cfg.EXTERNAL_NUM_INTERRUPTS = p ∧
      (s.AttachInterrupt cfg cfg.EXTERNAL_NUM_INTERRUPTS p mode).2.2 = []) ∧
    cfgAvr.EXTERNAL_NUM_INTERRUPTS = 2 ∧
    scenarioLogic.pHalIsr 2 = none ∧
    (scenarioLogic.AttachInterrupt cfgAvr 2 (some 7) 1).1 = EBF_OK ∧
    (scenarioLogic.AttachInterrupt cfgAvr 2 (some 7) 1).1 ≠ EBF_INDEX_OUT_OF_BOUNDS ∧
    (scenarioLogic.AttachInterrupt cfgAvr 2 (some 7) 1).2.1.pHalIsr 2 = some 7 ∧
    ((scenarioLogic.AttachInterrupt cfgAvr 2 (some 7) 1).2.1.HandleIsr (fun _ t => t) 2).2
      = [Event.processCallback 7 1] := by
  refine ⟨?_, rfl, rfl, rfl, by decide, rfl, rfl⟩
  intro cfg s p mode
  unfold EBF_Logic.AttachInterrupt
  simp [setCell]

/-! ## Registration -/

/-- C3. With `GetNumberOfInstances()` a `uint8_t` value `cap`: when the driver count
equals `cap`, `AddHalInstance` returns `EBF_INDEX_OUT_OF_BOUNDS` and leaves the
whole state (count and stored drivers) unchanged; when the count is below
`cap`, it returns `EBF_OK`, stores the driver in the cell of the old count,
leaves the other cells alone and increases the count by exactly one. -/
theorem C3_addHalInstance (s : EBF_Logic) (cap : Nat) (drv : EBF_HalInstance)
    (hcap : cap ≤ 255) :
    (s.halIndex = cap → s.AddHalInstance cap drv = (EBF_INDEX_OUT_OF_BOUNDS, s)) ∧
    (s.halIndex < cap →
      (s.AddHalInstance cap drv).1 = EBF_OK ∧
      (s.AddHalInstance cap drv).2.pHalInstances s.halIndex = drv ∧
      (∀ j, j ≠ s.halIndex →
        (s.AddHalInstance cap drv).2.pHalInstances j = s.pHalInstances j) ∧
      (s.AddHalInstance cap drv).2.halIndex = s.halIndex + 1) := by
  constructor
  · intro h
    unfold EBF_Logic.AddHalInstance
    simp [h]
  · intro h
    unfold EBF_Logic.AddHalInstance
    have h1 : ¬ s.halIndex ≥ cap := by omega
    simp only [h1, if_false, setCell, if_true, true_and]
    refine ⟨?_, ?_⟩
    · intro j hj; simp [hj]
    · omega

/-- Witness of C3: the registry of scenario 1 (two drivers), full at capacity 2 and
with room at capacity 3. -/
theorem C3_addHalInstance_witness :
    scenarioLogic.AddHalInstance 2 { pollIntervalMs := 5, lastPollMillis := 0 }
      = (EBF_INDEX_OUT_OF_BOUNDS, scenarioLogic) ∧
    (scenarioLogic.AddHalInstance 3 { pollIntervalMs := 5, lastPollMillis := 0 }).1 = EBF_OK ∧
    (scenarioLogic.AddHalInstance 3 { pollIntervalMs := 5, lastPollMillis := 0 }).2.halIndex
      = 3 :=
  ⟨(C3_addHalInstance scenarioLogic 2 { pollIntervalMs := 5, lastPollMillis := 0 }
      (by decide)).1 rfl,
   ((C3_addHalInstance scenarioLogic 3 { pollIntervalMs := 5, lastPollMillis := 0 }
      (by decide)).2 (by decide)).1,
   ((C3_addHalInstance scenarioLogic 3 { pollIntervalMs := 5, lastPollMillis := 0 }
      (by decide)).2 (by decide)).2.2.2⟩

/-! ## Sleep and drift -/

theorem EnterSleep_drift (s : EBF_Logic) (d e : Nat)
    (hmode : s.sleepMode ≠ EBF_NO_SLEEP) (hd : d < U16) (he : e < d) :
    rtcOnResume (sub32 (U32 - 1) d) Wake.overflow = 0 ∧
    (s.EnterSleep d Wake.overflow).2.microsAddition = (s.microsAddition + d * 1000) % U32 ∧
    rtcOnResume (sub32 (U32 - 1) d) (Wake.early e) = (U32 - 1) - d + e ∧
    (s.EnterSleep d (Wake.early e)).2.microsAddition = (s.microsAddition + e * 1000) % U32 := by
  have hd1 : d % U16 = d := Nat.mod_eq_of_lt hd
  unfold U16 at hd hd1
  have hcnt : rtcOnResume (sub32 (U32 - 1) d) (Wake.early e) = (U32 - 1) - d + e := by
    simp only [rtcOnResume, add32, sub32, U32]
    omega
  refine ⟨rfl, ?_, hcnt, ?_⟩
  · unfold EBF_Logic.EnterSleep
    simp only [hmode, if_false, rtcOnResume, RTC_Handler, if_true, U16, hd1]
    unfold add32 mul32 U32
    omega
  · unfold EBF_Logic.EnterSleep
    have hne : (U32 - 1) - d + e ≠ 0 := by
      unfold U32
      omega
    have hval : sub32 d (sub32 (U32 - 1) ((U32 - 1) - d + e)) = e := by
      unfold sub32 U32
      omega
    simp only [hmode, if_false, U16, hd1, hcnt, hne, hval]
    unfold add32 mul32 U32
    omega

/-- C4. In a sleep mode other than `EBF_NO_SLEEP` and for a 16-bit duration `d`:
resuming with the wake-timer counter at 0 adds `d * 1000` to `microsAddition`;
resuming after `e < d` ticks, the counter reading `(2^32 - 1) - d + e`, adds
`e * 1000`; both modulo `2^32`. -/
theorem C4_enterSleep_drift (s : EBF_Logic) (d e : Nat)
    (hmode : s.sleepMode ≠ EBF_NO_SLEEP) (hd : d < U16) (he : e < d) :
    rtcOnResume (sub32 (U32 - 1) d) Wake.overflow = 0 ∧
    (s.EnterSleep d Wake.overflow).2.microsAddition = (s.microsAddition + d * 1000) % U32 ∧
    rtcOnResume (sub32 (U32 - 1) d) (Wake.early e) = (U32 - 1) - d + e ∧
    (s.EnterSleep d (Wake.early e)).2.microsAddition = (s.microsAddition + e * 1000) % U32 :=
  EnterSleep_drift s d e hmode hd he

/-- Witness of C4: `d = 100` gives +100000 on overflow and +30000 for `e = 30`. -/
theorem C4_enterSleep_drift_witness :
    lightLogic.microsAddition = 0 ∧
    (lightLogic.EnterSleep 100 Wake.overflow).2.microsAddition = 100000 ∧
    (lightLogic.EnterSleep 100 (Wake.early 30)).2.microsAddition = 30000 :=
  ⟨rfl,
   (C4_enterSleep_drift lightLogic 100 30 (by decide) (by decide) (by decide)).2.1,
   (C4_enterSleep_drift lightLogic 100 30 (by decide) (by decide) (by decide)).2.2.2⟩

theorem EnterSleep_millis_of_no_wrap (cfg : Config) (s : EBF_Logic) (d e hw : Nat)
    (hsl : cfg.EBF_SLEEP_IMPLEMENTATION = true)
    (hmode : s.sleepMode ≠ EBF_NO_SLEEP) (hd : d < U16) (he : e < d)
    (hfit : s.microsAddition + d * 1000 < U32) :
    (s.EnterSleep d Wake.overflow).2.millis cfg hw = add32 (s.millis cfg hw) d ∧
    (s.EnterSleep d (Wake.early e)).2.millis cfg hw = add32 (s.millis cfg hw) e := by
  obtain ⟨-, h1, -, h2⟩ := EnterSleep_drift s d e hmode hd he
  have hfit2 : s.microsAddition + e * 1000 < U32 := by
    have : e * 1000 ≤ d * 1000 := Nat.mul_le_mul_right 1000 (Nat.le_of_lt he)
    omega
  have ha : s.microsAddition % U32 = s.microsAddition := Nat.mod_eq_of_lt (by omega)
  have hq : ∀ x, (s.microsAddition + x * 1000) / 1000 = s.microsAddition / 1000 + x := by
    intro x
    exact Nat.add_mul_div_right _ _ (by decide)
  constructor
  · unfold EBF_Logic.millis
    simp only [hsl, if_true]
    rw [h1, Nat.mod_mod, Nat.mod_eq_of_lt hfit, hq, ha]
    unfold add32 U32
    omega
  · unfold EBF_Logic.millis
    simp only [hsl, if_true]
    rw [h2, Nat.mod_mod, Nat.mod_eq_of_lt hfit2, hq, ha]
    unfold add32 U32
    omega

/-- C5. When the drift accumulator wraps around, the drift-corrected millisecond clock
does not advance by the time slept. With 4294967000 microseconds accumulated and the
hardware reading held at 0, `millis()` reads 4294967 before `EnterSleep(100)`;
after a full overflow wake it reads 99, not 4294967 + 100, and after an early wake
at 30 ms it reads 29, not 4294967 + 30. The microsecond clock, on the same input,
does advance by 100000 and 30000 modulo `2^32`. -/
theorem C5_millis_after_sleep_at_accumulator_wrap :
    driftLogic.millis cfgSamd 0 = 4294967 ∧
    (driftLogic.EnterSleep 100 Wake.overflow).2.millis cfgSamd 0 = 99 ∧
    (driftLogic.EnterSleep 100 Wake.overflow).2.millis cfgSamd 0
      ≠ add32 (driftLogic.millis cfgSamd 0) 100 ∧
    (driftLogic.EnterSleep 100 (Wake.early 30)).2.millis cfgSamd 0 = 29 ∧
    (driftLogic.EnterSleep 100 (Wake.early 30)).2.millis cfgSamd 0
      ≠ add32 (driftLogic.millis cfgSamd 0) 30 ∧
    (driftLogic.EnterSleep 100 Wake.overflow).2.micros cfgSamd 0
      = add32 (driftLogic.micros cfgSamd 0) 100000 ∧
    (driftLogic.EnterSleep 100 (Wake.early 30)).2.micros cfgSamd 0
      = add32 (driftLogic.micros cfgSamd 0) 30000 := by
  decide

/-! ## The busy-wait under the simulated clock -/

theorem busyWait_done (cfg : Config) (microsAt : Nat → Nat) (fuel : Nat) (w : WaitState)
    (h : w.delayWanted = 0) : busyWait cfg microsAt fuel w = w := by
  cases fuel with
  | zero => rfl
  | succ f => unfold busyWait; simp [h]

theorem simClock_tick (cfg : Config) (s : EBF_Logic) (now j : Nat) :
    sub32 (s.micros cfg ((1000 * (now + (j + 1))) % U32))
        (s.micros cfg ((1000 * (now + j)) % U32)) = 1000 ∧
      add32 (s.micros cfg ((1000 * (now + j)) % U32)) 1000
        = s.micros cfg ((1000 * (now + (j + 1))) % U32) := by
  unfold EBF_Logic.micros add32 sub32 U32
  split <;> omega

theorem catchUp_sim (cfg : Config) (s : EBF_Logic) (now : Nat) :
    ∀ d j, catchUp (fun k => s.micros cfg ((1000 * (now + k)) % U32)) d
        (s.micros cfg ((1000 * (now + j)) % U32)) (j + 1) =
      (0, s.micros cfg ((1000 * (now + (j + d))) % U32), j + 1 + d) := by
  intro d
  induction d with
  | zero => intro j; rfl
  | succ d ih =>
    intro j
    obtain ⟨h1, h2⟩ := simClock_tick cfg s now j
    unfold catchUp
    simp only [h1, h2, ge_iff_le, le_refl, if_true]
    rw [ih (j + 1)]
    have e1 : j + 1 + d = j + (d + 1) := by omega
    have e2 : j + 1 + 1 + d = j + 1 + (d + 1) := by omega
    rw [e1, e2]

theorem busyWait_sim (cfg : Config) (s : EBF_Logic) (now fuel d : Nat) (q : EBF_MessageQueue)
    (evs : List Event) (hfuel : 0 < fuel) (hd : d ≠ 0) :
    busyWait cfg (fun k => s.micros cfg ((1000 * (now + k)) % U32)) fuel
        { msgQueue := q, delayWanted := d, start := s.micros cfg ((1000 * (now + 0)) % U32)
          reads := 1, events := evs } =
      { msgQueue := (drainOne cfg q).1, delayWanted := 0
        start := s.micros cfg ((1000 * (now + d)) % U32), reads := 1 + d
        events := evs ++ [Event.yield] ++ (drainOne cfg q).2 } := by
  obtain ⟨f, rfl⟩ : ∃ f, fuel = f + 1 := ⟨fuel - 1, by omega⟩
  unfold busyWait
  simp only [hd, if_false]
  have hc := catchUp_sim cfg s now d 0
  simp only [Nat.zero_add] at hc
  have hw : waitBody cfg (fun k => s.micros cfg ((1000 * (now + k)) % U32))
      { msgQueue := q, delayWanted := d, start := s.micros cfg ((1000 * (now + 0)) % U32)
        reads := 1, events := evs } =
      { msgQueue := (drainOne cfg q).1, delayWanted := 0
        start := s.micros cfg ((1000 * (now + d)) % U32), reads := 1 + d
        events := evs ++ [Event.yield] ++ (drainOne cfg q).2 } := by
    unfold waitBody
    simp only [hc]
  rw [hw]
  exact busyWait_done _ _ _ _ rfl

theorem pollStep_delay_pos (millisAt : Nat → Nat) (m : Nat) (s : EBF_Logic) :
    (pollStep millisAt m s).delayWanted ≠ 0 := by
  simp only [pollStep, floorDelay]
  split <;> omega

/-- The polls of the simulated call at time `now`. -/
theorem simStep_eq (cfg : Config) (fuel m : Nat) (sim : Sim) (hfuel : 0 < fuel)
    (hns : cfg.EBF_SLEEP_IMPLEMENTATION = false ∨ sim.logic.sleepMode = EBF_NO_SLEEP) :
    simStep cfg fuel m sim =
      { logic := { sim.logic with
          pHalInstances :=
            (pollStep (fun _ => sim.logic.millis cfg (sim.now % U32)) m sim.logic).pHalInstances
          msgQueue := (drainOne cfg sim.logic.msgQueue).1 }
        now := sim.now +
          (pollStep (fun _ => sim.logic.millis cfg (sim.now % U32)) m sim.logic).delayWanted
        log := (((List.range sim.logic.halIndex).filter
          (isPolled (fun _ => sim.logic.millis cfg (sim.now % U32)) sim.logic.pHalInstances)).map
            (fun i => (sim.now, i))).reverse ++ sim.log
        ok := sim.ok } := by
  have hc : ¬ (cfg.EBF_SLEEP_IMPLEMENTATION = true ∧
      (pollStep (fun i => sim.logic.millis cfg ((simEnv sim.now m).millis i))
        (simEnv sim.now m).timersDelay sim.logic).delayWanted > 1 ∧
      sim.logic.sleepMode ≠ EBF_NO_SLEEP) := by
    rintro ⟨h1, -, h3⟩
    rcases hns with h | h
    · rw [h] at h1; cases h1
    · exact h3 h
  unfold simStep
  simp only
  rw [Process_wait cfg (simEnv sim.now m) fuel sim.logic hc]
  simp only [simEnv]
  have hb := busyWait_sim cfg sim.logic sim.now fuel
    (pollStep (fun _ => sim.logic.millis cfg (sim.now % U32)) m sim.logic).delayWanted
    sim.logic.msgQueue
    (pollStep (fun _ => sim.logic.millis cfg (sim.now % U32)) m sim.logic).events hfuel
    (pollStep_delay_pos _ _ _)
  simp only [hb]
  simp [pollsOf_append, pollsOf, pollsOf_drainOne, pollStep_events, pollsOf_map_halProcess]

/-! ## Scenario 1 -/

theorem simStep_fuel (cfg : Config) (fuel m : Nat) (sim : Sim) (hfuel : 0 < fuel)
    (hns : cfg.EBF_SLEEP_IMPLEMENTATION = false ∨ sim.logic.sleepMode = EBF_NO_SLEEP) :
    simStep cfg fuel m sim = simStep cfg 1 m sim := by
  rw [simStep_eq cfg fuel m sim hfuel hns, simStep_eq cfg 1 m sim (by decide) hns]

theorem simStep_sleepMode (cfg : Config) (fuel m : Nat) (sim : Sim) (hfuel : 0 < fuel)
    (hns : cfg.EBF_SLEEP_IMPLEMENTATION = false ∨ sim.logic.sleepMode = EBF_NO_SLEEP) :
    cfg.EBF_SLEEP_IMPLEMENTATION = false ∨
      (simStep cfg fuel m sim).logic.sleepMode = EBF_NO_SLEEP := by
  rw [simStep_eq cfg fuel m sim hfuel hns]
  exact hns

theorem simUntil_fuel (cfg : Config) (fuel horizon : Nat) (hfuel : 0 < fuel) (n : Nat) :
    ∀ sim : Sim, (cfg.EBF_SLEEP_IMPLEMENTATION = false ∨ sim.logic.sleepMode = EBF_NO_SLEEP) →
      simUntil cfg fuel horizon n sim = simUntil cfg 1 horizon n sim := by
  induction n with
  | zero => intro sim _; rfl
  | succ n ih =>
    intro sim hns
    unfold simUntil
    split
    · rw [simStep_fuel cfg fuel _ sim hfuel hns]
      exact ih _ (simStep_sleepMode cfg 1 _ sim (by decide) hns)
    · rfl

/-- C6, as the code behaves. In scenario 1 (clock from 0, callbacks taking no time, no
timer pending, no sleep, drivers A with interval 10 ms and B with interval 50 ms,
both last polled at 0) the calls of `Process` that start within the first 200
simulated milliseconds all return and poll A exactly 18 times, at 11, 22, ..., 198,
and B exactly 3 times, at 51, 102 and 153; the time then is 203. This holds in a
build without sleep support and in one with sleep support and `EBF_NO_SLEEP`. -/
theorem C6_scenario_poll_counts (fuel : Nat) (hfuel : 0 < fuel) :
    ((simUntil cfgAvr fuel 200 200 scenarioSim).ok = true ∧
      (simUntil cfgAvr fuel 200 200 scenarioSim).now = 203 ∧
      pollCount (simUntil cfgAvr fuel 200 200 scenarioSim) 0 = 18 ∧
      pollCount (simUntil cfgAvr fuel 200 200 scenarioSim) 1 = 3 ∧
      pollTimes (simUntil cfgAvr fuel 200 200 scenarioSim) 0 =
        [198, 187, 176, 165, 154, 143, 132, 121, 110, 99, 88, 77, 66, 55, 44, 33, 22, 11] ∧
      pollTimes (simUntil cfgAvr fuel 200 200 scenarioSim) 1 = [153, 102, 51]) ∧
    ((simUntil cfgSamd fuel 200 200 scenarioSim).ok = true ∧
      pollCount (simUntil cfgSamd fuel 200 200 scenarioSim) 0 = 18 ∧
      pollCount (simUntil cfgSamd fuel 200 200 scenarioSim) 1 = 3) := by
  rw [simUntil_fuel cfgAvr fuel 200 hfuel 200 scenarioSim (Or.inl rfl),
    simUntil_fuel cfgSamd fuel 200 hfuel 200 scenarioSim (Or.inr rfl)]
  decide

/-- Witness of C6: the busy-wait loop allowed three iterations per call. -/
theorem C6_scenario_poll_counts_witness :
    (0 < 3) ∧ pollCount (simUntil cfgAvr 3 200 200 scenarioSim) 0 = 18 ∧
      pollCount (simUntil cfgAvr 3 200 200 scenarioSim) 1 = 3 :=
  ⟨by decide, (C6_scenario_poll_counts 3 (by decide)).1.2.2.1,
    (C6_scenario_poll_counts 3 (by decide)).1.2.2.2.1⟩

/-- C6, as the claim words it, fails on scenario 1: driver A is not polled 19 times
or more, and its poll count is not within 1 of `200 / 10`. The same holds when the
call that would start at 200 ms is counted in. -/
theorem C6_scenario_claimed_counts_fail :
    ¬ (19 ≤ pollCount (simUntil cfgAvr 1 200 200 scenarioSim) 0 ∧
        3 ≤ pollCount (simUntil cfgAvr 1 200 200 scenarioSim) 1 ∧
        (200 / 10 ≤ pollCount (simUntil cfgAvr 1 200 200 scenarioSim) 0 + 1 ∧
          pollCount (simUntil cfgAvr 1 200 200 scenarioSim) 0 ≤ 200 / 10 + 1) ∧
        (200 / 50 ≤ pollCount (simUntil cfgAvr 1 200 200 scenarioSim) 1 + 1 ∧
          pollCount (simUntil cfgAvr 1 200 200 scenarioSim) 1 ≤ 200 / 50 + 1)) ∧
    ¬ (19 ≤ pollCount (simUntil cfgAvr 1 201 201 scenarioSim) 0) ∧
    ¬ (200 / 10 ≤ pollCount (simUntil cfgAvr 1 200 200 scenarioSim) 0 + 1) := by
  decide

/-! ## The gap between consecutive polls -/

theorem range_filter_filter_eq (P : Nat → Bool) (i n : Nat) :
    ((List.range n).filter P).filter (fun j => decide (j = i)) =
      if i < n ∧ P i = true then [i] else [] := by
  induction n with
  | zero => simp
  | succ n ih =>
    rw [List.range_succ, List.filter_append, List.filter_append, ih]
    by_cases hi : i = n
    · subst hi
      by_cases hP : P i = true
      · simp [hP]
      · simp [hP]
    · have hne : ¬ n = i := fun h => hi h.symm
      have hlt : (i < n + 1 ∧ P i = true) = (i < n ∧ P i = true) := by
        apply propext
        constructor
        · rintro ⟨h1, h2⟩; exact ⟨by omega, h2⟩
        · rintro ⟨h1, h2⟩; exact ⟨by omega, h2⟩
      simp only [hlt]
      by_cases hP : P n = true
      · simp [hP, hne]
      · simp [hP]

theorem pollTimes_cons_log (now : Nat) (polls : List Nat) (log : List (Nat × Nat)) (i : Nat) :
    ((((polls.map (fun j => (now, j))).reverse ++ log).filter
        (fun e => decide (e.2 = i))).map (fun e => e.1)) =
      ((polls.filter (fun j => decide (j = i))).map (fun _ => now)).reverse ++
        (log.filter (fun e => decide (e.2 = i))).map (fun e => e.1) := by
  rw [List.filter_append, List.map_append, List.filter_reverse, List.map_reverse,
    List.filter_map, List.map_map]
  rfl

theorem foldl_min_le_init (l : List Nat) : ∀ d : Nat, l.foldl min d ≤ d := by
  induction l with
  | nil => intro d; exact Nat.le_refl d
  | cons a l ih =>
    intro d
    exact Nat.le_trans (ih (min d a)) (Nat.min_le_left d a)

theorem foldl_min_le_mem (l : List Nat) : ∀ (d x : Nat), x ∈ l → l.foldl min d ≤ x := by
  induction l with
  | nil => intro d x hx; cases hx
  | cons a l ih =>
    intro d x hx
    rcases List.mem_cons.mp hx with h | h
    · subst h
      exact Nat.le_trans (foldl_min_le_init l (min d x)) (Nat.min_le_right d x)
    · exact ih (min d a) x h

theorem pollStep_delay_le (millisAt : Nat → Nat) (m : Nat) (s : EBF_Logic) (i : Nat)
    (hi : i < s.halIndex) (he : (s.pHalInstances i).GetPollingInterval ≠ EBF_NO_POLLING) :
    (pollStep millisAt m s).delayWanted ≤ max 1 (contribution millisAt s.pHalInstances i) := by
  rw [pollStep_delay]
  have hmem : contribution millisAt s.pHalInstances i ∈
      ((List.range s.halIndex).filter (isEnabled s.pHalInstances)).map
        (contribution millisAt s.pHalInstances) := by
    apply List.mem_map_of_mem
    rw [List.mem_filter, List.mem_range]
    exact ⟨hi, by simp [isEnabled, he]⟩
  have := foldl_min_le_mem _ (m % U16) _ hmem
  unfold floorDelay
  split <;> omega

theorem elapsed_sim (cfg : Config) (s : EBF_Logic) (now L : Nat) (h1 : L ≤ now)
    (h2 : now < L + U32) :
    sub32 (s.millis cfg (now % U32) % U32) (s.millis cfg (L % U32) % U32) = now - L := by
  unfold U32 at h2
  unfold EBF_Logic.millis add32 sub32 U32
  generalize s.microsAddition % 4294967296 / 1000 = c
  split <;> omega

theorem lastPoll_mod (h : EBF_HalInstance) : h.GetLastPollMillis % U32 = h.GetLastPollMillis := by
  unfold EBF_HalInstance.GetLastPollMillis
  exact Nat.mod_mod _ _

theorem interval_lt (h : EBF_HalInstance) : h.GetPollingInterval < 65536 := by
  unfold EBF_HalInstance.GetPollingInterval U16
  omega

theorem PollInv_step (cfg : Config) (fuel m i p : Nat) (sim : Sim) (hfuel : 0 < fuel)
    (hp : p ≠ EBF_NO_POLLING) (hinv : PollInv cfg i p sim) :
    PollInv cfg i p (simStep cfg fuel m sim) := by
  obtain ⟨hns, hi, hint, hok, hchain, hhead⟩ := hinv
  rw [simStep_eq cfg fuel m sim hfuel hns]
  have he : (sim.logic.pHalInstances i).GetPollingInterval ≠ EBF_NO_POLLING := by
    rw [hint]; exact hp
  have hD := pollStep_delay_le (fun _ => sim.logic.millis cfg (sim.now % U32)) m sim.logic i hi he
  have hT := congrFun
    (pollStep_table (fun _ => sim.logic.millis cfg (sim.now % U32)) m sim.logic) i
  have hp16 : p < 65536 := by rw [← hint]; exact interval_lt _
  have hPT : pollTimes
      { logic := { sim.logic with
          pHalInstances :=
            (pollStep (fun _ => sim.logic.millis cfg (sim.now % U32)) m sim.logic).pHalInstances
          msgQueue := (drainOne cfg sim.logic.msgQueue).1 }
        now := sim.now +
          (pollStep (fun _ => sim.logic.millis cfg (sim.now % U32)) m sim.logic).delayWanted
        log := (((List.range sim.logic.halIndex).filter
          (isPolled (fun _ => sim.logic.millis cfg (sim.now % U32)) sim.logic.pHalInstances)).map
            (fun i => (sim.now, i))).reverse ++ sim.log
        ok := sim.ok } i =
      (if isPolled (fun _ => sim.logic.millis cfg (sim.now % U32)) sim.logic.pHalInstances i
          = true then [sim.now] else []) ++ pollTimes sim i := by
    unfold pollTimes
    simp only
    rw [pollTimes_cons_log, range_filter_filter_eq]
    split <;> rename_i h
    · simp [h.2]
    · have : ¬ isPolled (fun _ => sim.logic.millis cfg (sim.now % U32))
          sim.logic.pHalInstances i = true := fun h2 => h ⟨hi, h2⟩
      simp [this]
  have hpol : isPolled (fun _ => sim.logic.millis cfg (sim.now % U32)) sim.logic.pHalInstances i
        = true ↔
      sub32 (sim.logic.millis cfg (sim.now % U32) % U32)
        (sim.logic.pHalInstances i).GetLastPollMillis > p := by
    simp only [isPolled, decide_eq_true_eq, hint]
    exact ⟨fun h => h.2, fun h => ⟨hp, h⟩⟩
  have hcon : contribution (fun _ => sim.logic.millis cfg (sim.now % U32))
        sim.logic.pHalInstances i =
      if sub32 (sim.logic.millis cfg (sim.now % U32) % U32)
          (sim.logic.pHalInstances i).GetLastPollMillis > p then p
      else sub32 p (sub32 (sim.logic.millis cfg (sim.now % U32) % U32)
          (sim.logic.pHalInstances i).GetLastPollMillis) % U16 := by
    simp [contribution, hint]
  rw [hcon] at hD
  have hset : ((sim.logic.pHalInstances i).SetLastPollMillis
        (sim.logic.millis cfg (sim.now % U32) % U32)).GetLastPollMillis
      = sim.logic.millis cfg (sim.now % U32) := by
    have := millis_lt cfg sim.logic (sim.now % U32)
    simp only [EBF_HalInstance.SetLastPollMillis, EBF_HalInstance.GetLastPollMillis]
    rw [Nat.mod_mod, Nat.mod_mod, Nat.mod_eq_of_lt this]
  unfold PollInv
  rw [hPT]
  simp only [hT]
  refine ⟨hns, hi, ?_, hok, ?_, ?_⟩
  · split <;> first | rfl | exact hint
  · by_cases hq : isPolled (fun _ => sim.logic.millis cfg (sim.now % U32))
        sim.logic.pHalInstances i = true
    · simp only [hq, if_true, List.singleton_append]
      cases hpt : pollTimes sim i with
      | nil => exact List.chain'_singleton _
      | cons L rest =>
        rw [hpt] at hchain
        obtain ⟨h1, h2, h3⟩ := hhead L (by rw [hpt]; rfl)
        refine List.Chain'.cons ?_ hchain
        have hE := elapsed_sim cfg sim.logic sim.now L h1 (by unfold U32; omega)
        rw [← h3, lastPoll_mod] at hE
        have := hpol.mp hq
        rw [hE] at this
        exact ⟨by omega, h2⟩
    · simp only [hq, Bool.false_eq_true, if_false, List.nil_append]
      exact hchain
  · intro L hL
    by_cases hq : isPolled (fun _ => sim.logic.millis cfg (sim.now % U32))
        sim.logic.pHalInstances i = true
    · simp only [hq, if_true, List.singleton_append, List.head?_cons, Option.some.injEq] at hL
      subst hL
      have := hpol.mp hq
      simp only [this, if_true] at hD
      simp only [hi, hq, and_self, if_true, hset]
      refine ⟨by omega, by omega, rfl⟩
    · simp only [hq, Bool.false_eq_true, if_false, List.nil_append] at hL
      obtain ⟨h1, h2, h3⟩ := hhead L hL
      have hE := elapsed_sim cfg sim.logic sim.now L h1 (by unfold U32; omega)
      rw [← h3, lastPoll_mod] at hE
      have hnq : ¬ sub32 (sim.logic.millis cfg (sim.now % U32) % U32)
          (sim.logic.pHalInstances i).GetLastPollMillis > p := fun h => hq (hpol.mpr h)
      simp only [hnq, if_false] at hD
      rw [hE] at hD hnq
      simp only [hq, and_false, Bool.false_eq_true, if_false]
      have hsub : sub32 p (sim.now - L) % U16 = p - (sim.now - L) := by
        unfold sub32 U32 U16
        omega
      rw [hsub] at hD
      refine ⟨by omega, by omega, h3⟩

theorem PollInv_run (cfg : Config) (fuel : Nat) (timerMin : Nat → Nat) (i p : Nat) (sim : Sim)
    (hfuel : 0 < fuel) (hp : p ≠ EBF_NO_POLLING) (hinv : PollInv cfg i p sim) (n : Nat) :
    PollInv cfg i p (simRun cfg fuel timerMin sim n) := by
  induction n with
  | zero => exact hinv
  | succ n ih => exact PollInv_step cfg fuel (timerMin n) i p _ hfuel hp ih

/-- C7. Under the simulated clock (callbacks take no time, no sleep, each busy-wait ends
exactly when the wanted delay has elapsed), for every run-time state, every sequence
of timer minimums and every registered driver with a polling interval `p` other than
`EBF_NO_POLLING`: all calls of `Process` return, and between two consecutive polls
of that driver more than `p` and at most `p + 1` milliseconds pass. -/
theorem C7_poll_gap_bound (cfg : Config) (fuel : Nat) (timerMin : Nat → Nat) (sim : Sim)
    (n i : Nat) (hfuel : 0 < fuel)
    (hns : cfg.EBF_SLEEP_IMPLEMENTATION = false ∨ sim.logic.sleepMode = EBF_NO_SLEEP)
    (hok : sim.ok = true) (hlog : sim.log = []) (hi : i < sim.logic.halIndex)
    (hp : (sim.logic.pHalInstances i).GetPollingInterval ≠ EBF_NO_POLLING) :
    (simRun cfg fuel timerMin sim n).ok = true ∧
    List.Chain' (pollGap (sim.logic.pHalInstances i).GetPollingInterval)
      (pollTimes (simRun cfg fuel timerMin sim n) i) := by
  have h0 : PollInv cfg i (sim.logic.pHalInstances i).GetPollingInterval sim := by
    have hpt : pollTimes sim i = [] := by simp [pollTimes, hlog]
    refine ⟨hns, hi, rfl, hok, ?_, ?_⟩
    · rw [hpt]; exact List.chain'_nil
    · intro L hL
      rw [hpt] at hL
      cases hL
  have h := PollInv_run cfg fuel timerMin i _ sim hfuel hp h0 n
  exact ⟨h.2.2.2.1, h.2.2.2.2.1⟩

set_option maxRecDepth 100000 in
/-- Witness of C7: driver A (interval 10 ms) of scenario 1 over twelve calls. -/
theorem C7_poll_gap_bound_witness :
    (0 < 1) ∧ scenarioSim.log = [] ∧ 0 < scenarioSim.logic.halIndex ∧
    (scenarioSim.logic.pHalInstances 0).GetPollingInterval = 10 ∧
    pollTimes (simRun cfgAvr 1 (fun _ => EBF_NO_POLLING) scenarioSim 12) 0 = [44, 33, 22, 11] ∧
    List.Chain' (pollGap (scenarioSim.logic.pHalInstances 0).GetPollingInterval)
      (pollTimes (simRun cfgAvr 1 (fun _ => EBF_NO_POLLING) scenarioSim 12) 0) :=
  ⟨by decide, rfl, by decide, by decide, by decide,
    (C7_poll_gap_bound cfgAvr 1 (fun _ => EBF_NO_POLLING) scenarioSim 12 0 (by decide)
      (Or.inl rfl) rfl rfl (by decide) (by decide)).2⟩

/-! ## Drivers that are never polled -/

theorem contribs_dropCell (millisAt : Nat → Nat) (tbl : Nat → EBF_HalInstance) (i : Nat)
    (hnp : (tbl i).GetPollingInterval = EBF_NO_POLLING) (n : Nat) (hn : i ≤ n) :
    ((List.range (n + 1)).filter (isEnabled tbl)).map (contribution millisAt tbl) =
      ((List.range n).filter (isEnabled (dropCell tbl i))).map
        (contribution (dropCell millisAt i) (dropCell tbl i)) := by
  induction n, hn using Nat.le_induction with
  | base =>
    have hE : isEnabled tbl i = false := by simp [isEnabled, hnp]
    rw [List.range_succ, List.filter_append]
    simp only [List.filter_cons, hE, List.filter_nil, List.append_nil, Bool.false_eq_true,
      if_false]
    have hf : (List.range i).filter (isEnabled tbl)
        = (List.range i).filter (isEnabled (dropCell tbl i)) := by
      apply List.filter_congr
      intro j hj
      rw [List.mem_range] at hj
      simp [isEnabled, dropCell, hj]
    rw [hf]
    apply List.map_congr_left
    intro j hj
    rw [List.mem_filter, List.mem_range] at hj
    simp [contribution, dropCell, hj.1]
  | succ n hn ih =>
    have hlt : ¬ n < i := by omega
    have hE : isEnabled (dropCell tbl i) n = isEnabled tbl (n + 1) := by
      simp [isEnabled, dropCell, hlt]
    have hC : contribution (dropCell millisAt i) (dropCell tbl i) n
        = contribution millisAt tbl (n + 1) := by
      simp [contribution, dropCell, hlt]
    rw [List.range_succ, List.filter_append, List.map_append, ih]
    conv_rhs => rw [List.range_succ, List.filter_append, List.map_append]
    congr 1
    simp only [List.filter_cons, List.filter_nil, hE]
    split <;> simp [hC]

/-- C8. A registered driver whose polling interval is `EBF_NO_POLLING` is not polled
by `Process` and keeps its last-poll timestamp, whatever the state and the clock
readings; and the wanted delay is the one computed with that driver taken out of
the registry. -/
theorem C8_never_polled_driver (cfg : Config) (env : Env) (fuel : Nat) (s : EBF_Logic)
    (i : Nat) (hi : i < s.halIndex)
    (hnp : (s.pHalInstances i).GetPollingInterval = EBF_NO_POLLING) :
    Event.halProcess i ∉ (s.Process cfg env fuel).events ∧
    (s.Process cfg env fuel).logic.pHalInstances i = s.pHalInstances i ∧
    (s.Process cfg env fuel).delayWanted =
      ((s.withoutHal i).Process cfg (env.withoutHal i) fuel).delayWanted := by
  refine ⟨?_, ?_, ?_⟩
  · rw [← mem_pollsOf, Process_polls]
    simp [isPolled, hnp]
  · rw [Process_table, pollStep_table]
    simp [isPolled, hnp]
  · rw [Process_delayWanted, Process_delayWanted, pollStep_delay, pollStep_delay]
    have hn : s.halIndex = (s.halIndex - 1) + 1 := by omega
    have hle : i ≤ s.halIndex - 1 := by omega
    have key := contribs_dropCell (fun k => s.millis cfg (env.millis k)) s.pHalInstances i hnp
      (s.halIndex - 1) hle
    rw [← hn] at key
    have hfun : dropCell (fun k => s.millis cfg (env.millis k)) i =
        fun k => (s.withoutHal i).millis cfg ((env.withoutHal i).millis k) := by
      funext k
      by_cases hk : k < i <;>
        simp [dropCell, Env.withoutHal, EBF_Logic.withoutHal, EBF_Logic.millis, hk]
    rw [key, hfun]
    rfl

/-- Witness of C8: a registry of three drivers whose middle one is never polled, at
clock reading 7 ms with no timer pending. -/
theorem C8_never_polled_driver_witness :
    Event.halProcess 1 ∉
      (({ scenarioLogic with
          pHalInstances := fun k =>
            if k = 1 then { pollIntervalMs := EBF_NO_POLLING, lastPollMillis := 0 }
            else { pollIntervalMs := 5, lastPollMillis := 0 }
          halIndex := 3 } : EBF_Logic).Process cfgAvr (simEnv 7 EBF_NO_POLLING) 1).events :=
  (C8_never_polled_driver cfgAvr (simEnv 7 EBF_NO_POLLING) 1
    { scenarioLogic with
      pHalInstances := fun k =>
        if k = 1 then { pollIntervalMs := EBF_NO_POLLING, lastPollMillis := 0 }
        else { pollIntervalMs := 5, lastPollMillis := 0 }
      halIndex := 3 } 1 (by decide) (by decide)).1

/-! ## Interrupt dispatch -/

/-- C9. For an in-range line `HandleIsr` makes an interrupt-context callback exactly
when the slot of the line is bound; bound to `p`, it makes the single call
`p->ProcessCallback()`, with `isRunFromISR` set to 1 during the call and 0
after it; unbound, it makes no call and leaves the run-time state, the flag
included, as it was. Right after `Init` every in-range line is unbound. -/
theorem C9_handleIsr_dispatch (cfg : Config) (callback : HalPtr → EBF_Logic → EBF_Logic)
    (s : EBF_Logic) (line : Nat) (hline : line < cfg.EXTERNAL_NUM_INTERRUPTS) :
    ((∃ p f, Event.processCallback p f ∈ (s.HandleIsr callback line).2) ↔
      s.pHalIsr line ≠ none) ∧
    (∀ p, s.pHalIsr line = some p →
      (s.HandleIsr callback line).2 = [Event.processCallback p 1] ∧
      (s.HandleIsr callback line).1 =
        { callback p { s with isRunFromISR := 1 } with isRunFromISR := 0 }) ∧
    (s.pHalIsr line = none → s.HandleIsr callback line = (s, [])) ∧
    (s.InitIsr cfg).HandleIsr callback line = (s.InitIsr cfg, []) := by
  refine ⟨?_, ?_, ?_, ?_⟩
  · unfold EBF_Logic.HandleIsr
    cases h : s.pHalIsr line with
    | none => simp
    | some p => simp
  · intro p hp
    unfold EBF_Logic.HandleIsr
    simp [hp]
  · intro hn
    unfold EBF_Logic.HandleIsr
    simp [hn]
  · unfold EBF_Logic.HandleIsr EBF_Logic.InitIsr
    simp [hline]

/-- Witness of C9: line 1 of two, once bound to driver 7 and once unbound. -/
theorem C9_handleIsr_dispatch_witness :
    (1 < cfgAvr.EXTERNAL_NUM_INTERRUPTS) ∧
    (({ scenarioLogic with pHalIsr := fun k => if k = 1 then some 7 else none }).HandleIsr
      (fun _ t => t) 1).2 = [Event.processCallback 7 1] ∧
    (scenarioLogic.HandleIsr (fun _ t => t) 1).2 = [] :=
  ⟨by decide,
   ((C9_handleIsr_dispatch cfgAvr (fun _ t => t)
      { scenarioLogic with pHalIsr := fun k => if k = 1 then some 7 else none } 1
      (by decide)).2.1 7 rfl).1,
   congrArg Prod.snd
     ((C9_handleIsr_dispatch cfgAvr (fun _ t => t) scenarioLogic 1 (by decide)).2.2.1 rfl)⟩

/-! ## Sleeping or busy-waiting -/

/-- C10. In a build with sleep support: `Process` calls `EnterSleep` exactly when the
wanted delay is greater than 1 and the sleep mode is not `EBF_NO_SLEEP`. It then
makes that one call after the polls, with the wanted delay as the duration, and
returns `EBF_OK` with the state `EnterSleep` left: no `yield()`, no message taken
or dispatched, the queue as it was, no further clock reading. Otherwise it makes no
call of `EnterSleep`, and (the loop being allowed at least one iteration) goes on
after the polls with the `yield()` of the busy-wait loop. -/
theorem C10_process_sleeps_or_waits (cfg : Config) (env : Env) (fuel : Nat) (s : EBF_Logic)
    (hsl : cfg.EBF_SLEEP_IMPLEMENTATION = true) :
    ((∃ d, Event.enterSleep d ∈ (s.Process cfg env fuel).events) ↔
      (1 < (s.Process cfg env fuel).delayWanted ∧ s.sleepMode ≠ EBF_NO_SLEEP)) ∧
    ((1 < (s.Process cfg env fuel).delayWanted ∧ s.sleepMode ≠ EBF_NO_SLEEP) →
      (s.Process cfg env fuel).rc = some EBF_OK ∧
      (s.Process cfg env fuel).events =
        (pollStep (fun i => s.millis cfg (env.millis i)) env.timersDelay s).events
          ++ [Event.enterSleep (s.Process cfg env fuel).delayWanted] ∧
      (s.Process cfg env fuel).logic =
        (({ s with pHalInstances :=
            (pollStep (fun i => s.millis cfg (env.millis i)) env.timersDelay s).pHalInstances }
          : EBF_Logic).EnterSleep (s.Process cfg env fuel).delayWanted env.wake).2 ∧
      (∀ e ∈ (s.Process cfg env fuel).events, isWaitEvent e = false) ∧
      (s.Process cfg env fuel).logic.msgQueue = s.msgQueue ∧
      (s.Process cfg env fuel).reads = 1) ∧
    (¬ (1 < (s.Process cfg env fuel).delayWanted ∧ s.sleepMode ≠ EBF_NO_SLEEP) →
      (∀ d, Event.enterSleep d ∉ (s.Process cfg env fuel).events) ∧
      (0 < fuel → ∃ rest, (s.Process cfg env fuel).events =
        (pollStep (fun i => s.millis cfg (env.millis i)) env.timersDelay s).events
          ++ Event.yield :: rest)) := by
  have hD := Process_delayWanted cfg env fuel s
  have hpoll := pollStep_events_poll (fun i => s.millis cfg (env.millis i)) env.timersDelay s
  have hpos : (pollStep (fun i => s.millis cfg (env.millis i)) env.timersDelay s).delayWanted
      ≠ 0 := by
    simp only [pollStep, floorDelay]
    split <;> omega
  by_cases hc : 1 < (s.Process cfg env fuel).delayWanted ∧ s.sleepMode ≠ EBF_NO_SLEEP
  · have hc1 : cfg.EBF_SLEEP_IMPLEMENTATION = true ∧
        (pollStep (fun i => s.millis cfg (env.millis i)) env.timersDelay s).delayWanted > 1 ∧
        s.sleepMode ≠ EBF_NO_SLEEP := ⟨hsl, hD ▸ hc.1, hc.2⟩
    have hP := Process_sleep cfg env fuel s hc1
    have hev : (s.Process cfg env fuel).events =
        (pollStep (fun i => s.millis cfg (env.millis i)) env.timersDelay s).events
          ++ [Event.enterSleep (s.Process cfg env fuel).delayWanted] := by
      rw [hD, hP]
    refine ⟨⟨fun _ => hc, fun _ => ⟨(s.Process cfg env fuel).delayWanted, by rw [hev]; simp⟩⟩,
      fun _ => ⟨?_, hev, ?_, ?_, ?_, ?_⟩, fun h => absurd hc h⟩
    · rw [hP]
    · rw [hD, hP]
    · intro e he
      rw [hev, List.mem_append] at he
      rcases he with he | he
      · obtain ⟨i, rfl⟩ := hpoll e he
        rfl
      · simp only [List.mem_singleton] at he
        subst he
        rfl
    · rw [hP]
      simp only
      rw [EnterSleep_msgQueue]
    · rw [hP]
  · have hc1 : ¬ (cfg.EBF_SLEEP_IMPLEMENTATION = true ∧
        (pollStep (fun i => s.millis cfg (env.millis i)) env.timersDelay s).delayWanted > 1 ∧
        s.sleepMode ≠ EBF_NO_SLEEP) := fun h => hc ⟨hD ▸ h.2.1, h.2.2⟩
    obtain ⟨extra, h1, h2, h3⟩ := busyWait_events cfg (fun k => s.micros cfg (env.micros k)) fuel
      { msgQueue := s.msgQueue
        delayWanted :=
          (pollStep (fun i => s.millis cfg (env.millis i)) env.timersDelay s).delayWanted
        start := s.micros cfg (env.micros 0), reads := 1
        events := (pollStep (fun i => s.millis cfg (env.millis i)) env.timersDelay s).events }
    have hev : (s.Process cfg env fuel).events =
        (pollStep (fun i => s.millis cfg (env.millis i)) env.timersDelay s).events ++ extra := by
      rw [← h1, Process_wait cfg env fuel s hc1]
    have hno : ∀ d, Event.enterSleep d ∉ (s.Process cfg env fuel).events := by
      intro d hd
      rw [hev, List.mem_append] at hd
      rcases hd with hd | hd
      · obtain ⟨i, hi⟩ := hpoll _ hd
        cases hi
      · have := h2 _ hd
        simp [isWaitEvent] at this
    refine ⟨⟨fun ⟨d, hd⟩ => absurd hd (hno d), fun h => absurd h hc⟩, fun h => absurd h hc,
      fun _ => ⟨hno, ?_⟩⟩
    intro hf
    obtain ⟨rest, hrest⟩ := h3 hf hpos
    exact ⟨rest, by rw [hev, hrest]⟩

/-- Witness of C10: with light sleep selected and a wanted delay of 10 ms the call
sleeps for 10 ms; with `EBF_NO_SLEEP` selected the same registry busy-waits. -/
theorem C10_process_sleeps_or_waits_witness :
    cfgSamd.EBF_SLEEP_IMPLEMENTATION = true ∧
    (lightLogic.Process cfgSamd (simEnv 0 EBF_NO_POLLING) 1).delayWanted = 10 ∧
    (lightLogic.Process cfgSamd (simEnv 0 EBF_NO_POLLING) 1).events = [Event.enterSleep 10] ∧
    (∀ d, Event.enterSleep d ∉
      (scenarioLogic.Process cfgSamd (simEnv 0 EBF_NO_POLLING) 1).events) :=
  ⟨rfl, by decide,
    ((C10_process_sleeps_or_waits cfgSamd (simEnv 0 EBF_NO_POLLING) 1 lightLogic rfl).2.1
      (by decide)).2.1,
    ((C10_process_sleeps_or_waits cfgSamd (simEnv 0 EBF_NO_POLLING) 1 scenarioLogic rfl).2.2
      (by decide)).1⟩

/-! ## The busy-wait loop -/

theorem catchUp_reads (microsAt : Nat → Nat) :
    ∀ d start reads, reads ≤ (catchUp microsAt d start reads).2.2 ∧
      (0 < d → reads < (catchUp microsAt d start reads).2.2) := by
  intro d
  induction d with
  | zero => intro start reads; simp [catchUp]
  | succ d ih =>
    intro start reads
    unfold catchUp
    split
    · have := (ih (add32 start 1000) (reads + 1)).1
      exact ⟨by omega, fun _ => by omega⟩
    · exact ⟨by simp, fun _ => by simp⟩

theorem catchUp_inv (microsAt t : Nat → Nat) (c D B : Nat)
    (hclk : ∀ k, k < B → microsAt k = (t k + c) % U32)
    (hmono : ∀ k, k < B → ∀ j, j ≤ k → t j ≤ t k)
    (hspan : ∀ k, k < B → t k < t 0 + U32) :
    ∀ d start reads, (catchUp microsAt d start reads).2.2 ≤ B →
      WaitInv t c D d start reads →
      WaitInv t c D (catchUp microsAt d start reads).1 (catchUp microsAt d start reads).2.1
        (catchUp microsAt d start reads).2.2 ∧
      (∀ K, t 0 + 1000 * D ≤ t K → K ≤ reads → (catchUp microsAt d start reads).1 = 0) := by
  intro d
  induction d with
  | zero =>
    intro start reads _ hinv
    exact ⟨by simpa [catchUp] using hinv, fun _ _ _ => rfl⟩
  | succ d ih =>
    intro start reads hB hinv
    obtain ⟨h1, h2, h3, h4⟩ := hinv
    have hlt : reads < B := by
      have := (catchUp_reads microsAt (d + 1) start reads).2 (by omega)
      omega
    have hrd := hclk reads hlt
    have hm := hmono reads hlt (reads - 1) (by omega)
    have hs := hspan reads hlt
    have hdiff : sub32 (microsAt reads) start = t reads - (t 0 + 1000 * (D - (d + 1))) := by
      rw [hrd, h3]
      unfold U32 at hs
      unfold sub32 U32
      omega
    unfold catchUp at hB ⊢
    by_cases hc : sub32 (microsAt reads) start ≥ 1000
    · simp only [hc, if_true] at hB ⊢
      have hinv2 : WaitInv t c D d (add32 start 1000) (reads + 1) := by
        refine ⟨by omega, by omega, ?_, ?_⟩
        · rw [h3]
          unfold add32 U32
          have : D - d = D - (d + 1) + 1 := by omega
          rw [this]
          omega
        · rw [hdiff] at hc
          simp only [Nat.add_sub_cancel]
          have : D - d = D - (d + 1) + 1 := by omega
          rw [this]
          omega
      obtain ⟨g1, g2⟩ := ih (add32 start 1000) (reads + 1) hB hinv2
      exact ⟨g1, fun K hK hKr => g2 K hK (by omega)⟩
    · simp only [hc, if_false] at hB ⊢
      refine ⟨⟨h1, by omega, h3, ?_⟩, ?_⟩
      · simp only [Nat.add_sub_cancel]
        omega
      · intro K hK hKr
        exfalso
        have := hmono reads hlt K hKr
        rw [hdiff] at hc
        omega

theorem waitBody_eq (cfg : Config) (microsAt : Nat → Nat) (w : WaitState) :
    waitBody cfg microsAt w =
      { msgQueue := (drainOne cfg w.msgQueue).1
        delayWanted := (catchUp microsAt w.delayWanted w.start w.reads).1
        start := (catchUp microsAt w.delayWanted w.start w.reads).2.1
        reads := (catchUp microsAt w.delayWanted w.start w.reads).2.2
        events := w.events ++ [Event.yield] ++ (drainOne cfg w.msgQueue).2 } := rfl

theorem busyWait_reads (cfg : Config) (microsAt : Nat → Nat) (fuel : Nat) :
    ∀ w : WaitState, w.reads ≤ (busyWait cfg microsAt fuel w).reads := by
  induction fuel with
  | zero => intro w; exact Nat.le_refl _
  | succ fuel ih =>
    intro w
    unfold busyWait
    split
    · exact Nat.le_refl _
    · have h1 := ih (waitBody cfg microsAt w)
      have h2 := (catchUp_reads microsAt w.delayWanted w.start w.reads).1
      rw [waitBody_eq] at h1
      rw [waitBody_eq]
      exact Nat.le_trans h2 h1

theorem busyWait_inv (cfg : Config) (microsAt t : Nat → Nat) (c D B : Nat)
    (hclk : ∀ k, k < B → microsAt k = (t k + c) % U32)
    (hmono : ∀ k, k < B → ∀ j, j ≤ k → t j ≤ t k)
    (hspan : ∀ k, k < B → t k < t 0 + U32) (fuel : Nat) :
    ∀ w : WaitState, (busyWait cfg microsAt fuel w).reads ≤ B →
      WaitInv t c D w.delayWanted w.start w.reads →
      WaitInv t c D (busyWait cfg microsAt fuel w).delayWanted
        (busyWait cfg microsAt fuel w).start (busyWait cfg microsAt fuel w).reads ∧
      (∀ K, t 0 + 1000 * D ≤ t K → K < w.reads + fuel → (0 < fuel ∨ w.delayWanted = 0) →
        (busyWait cfg microsAt fuel w).delayWanted = 0) := by
  induction fuel with
  | zero =>
    intro w _ hinv
    refine ⟨hinv, ?_⟩
    intro K _ _ h0
    rcases h0 with h0 | h0
    · exact absurd h0 (Nat.lt_irrefl 0)
    · exact h0
  | succ fuel ih =>
    intro w hB hinv
    unfold busyWait at hB ⊢
    by_cases hd : w.delayWanted = 0
    · simp only [hd, if_true] at hB ⊢
      refine ⟨by rw [← hd]; exact hinv, fun _ _ _ _ => trivial⟩
    · simp only [hd, if_false] at hB ⊢
      have hrB : (waitBody cfg microsAt w).reads ≤ B :=
        Nat.le_trans (busyWait_reads cfg microsAt fuel _) hB
      have hrB2 : (catchUp microsAt w.delayWanted w.start w.reads).2.2 ≤ B := hrB
      obtain ⟨c1, c2⟩ := catchUp_inv microsAt t c D B hclk hmono hspan
        w.delayWanted w.start w.reads hrB2 hinv
      have hinv2 : WaitInv t c D (waitBody cfg microsAt w).delayWanted
          (waitBody cfg microsAt w).start (waitBody cfg microsAt w).reads := c1
      obtain ⟨g1, g2⟩ := ih (waitBody cfg microsAt w) hB hinv2
      refine ⟨g1, ?_⟩
      intro K hK hKf _
      by_cases hKr : K ≤ w.reads
      · have hz : (waitBody cfg microsAt w).delayWanted = 0 := c2 K hK hKr
        rw [busyWait_done cfg microsAt fuel _ hz]
        exact hz
      · have hr := (catchUp_reads microsAt w.delayWanted w.start w.reads).2 (by omega)
        have hr2 : w.reads < (waitBody cfg microsAt w).reads := hr
        exact g2 K hK (by omega) (Or.inl (by omega))

theorem dispatchedOf_append (a b : List Event) :
    dispatchedOf (a ++ b) = dispatchedOf a ++ dispatchedOf b := by
  induction a with
  | nil => simp [dispatchedOf]
  | cons e a ih => cases e <;> simp [dispatchedOf, ih]

theorem takenCount_append (a b : List Event) :
    takenCount (a ++ b) = takenCount a + takenCount b := by
  induction a with
  | nil => simp [takenCount]
  | cons e a ih => cases e <;> simp [takenCount, ih]; omega

theorem yieldCount_append (a b : List Event) :
    yieldCount (a ++ b) = yieldCount a + yieldCount b := by
  induction a with
  | nil => simp [yieldCount]
  | cons e a ih => cases e <;> simp [yieldCount, ih]; omega

theorem drainOne_cases (cfg : Config) (q : EBF_MessageQueue) :
    drainOne cfg q = (q, []) ∨
      ∃ m rest, q.entries = m :: rest ∧
        drainOne cfg q =
          ({ q with entries := rest }, [Event.getMessage, Event.msgProcess m.param1]) := by
  unfold drainOne
  by_cases hi : cfg.EBF_USE_INTERRUPTS = true
  · cases he : q.entries with
    | nil =>
      left
      simp [hi, EBF_MessageQueue.GetMessagesNumber, he]
    | cons m rest =>
      right
      refine ⟨m, rest, rfl, ?_⟩
      simp [hi, EBF_MessageQueue.GetMessagesNumber, EBF_MessageQueue.GetMessage, he]
  · left
    simp [hi]

theorem busyWait_messages (cfg : Config) (microsAt : Nat → Nat) (fuel : Nat) :
    ∀ w : WaitState, ∃ extra,
      (busyWait cfg microsAt fuel w).events = w.events ++ extra ∧
      (∀ e ∈ extra, isWaitEvent e = true) ∧
      (busyWait cfg microsAt fuel w).msgQueue.entries
        = w.msgQueue.entries.drop (takenCount extra) ∧
      dispatchedOf extra = (w.msgQueue.entries.take (takenCount extra)).map (fun m => m.param1) ∧
      takenCount extra ≤ yieldCount extra := by
  induction fuel with
  | zero =>
    intro w
    exact ⟨[], by simp [busyWait], by simp, by simp [busyWait, takenCount],
      by simp [dispatchedOf, takenCount], by simp [takenCount]⟩
  | succ fuel ih =>
    intro w
    unfold busyWait
    split
    · exact ⟨[], by simp, by simp, by simp [takenCount], by simp [dispatchedOf, takenCount],
        by simp [takenCount]⟩
    · obtain ⟨extra, h1, h2, h3, h4, h5⟩ := ih (waitBody cfg microsAt w)
      have hev : (waitBody cfg microsAt w).events
          = w.events ++ [Event.yield] ++ (drainOne cfg w.msgQueue).2 := rfl
      have hq : (waitBody cfg microsAt w).msgQueue = (drainOne cfg w.msgQueue).1 := rfl
      rw [hev] at h1
      rw [hq] at h3 h4
      rcases drainOne_cases cfg w.msgQueue with hd | ⟨m, rest, he, hd⟩
      · rw [hd] at h1 h3 h4
        simp only at h1 h3 h4
        refine ⟨Event.yield :: extra, ?_, ?_, ?_, ?_, ?_⟩
        · rw [h1]; simp
        · intro e he
          rcases List.mem_cons.mp he with h | h
          · subst h; rfl
          · exact h2 e h
        · simpa [takenCount] using h3
        · simpa [takenCount, dispatchedOf] using h4
        · simp only [takenCount, yieldCount]; omega
      · rw [hd] at h1 h3 h4
        simp only at h1 h3 h4
        refine ⟨Event.yield :: Event.getMessage :: Event.msgProcess m.param1 :: extra,
          ?_, ?_, ?_, ?_, ?_⟩
        · rw [h1]; simp
        · intro e hmem
          simp only [List.mem_cons] at hmem
          rcases hmem with h | h | h | h
          · subst h; rfl
          · subst h; rfl
          · subst h; rfl
          · exact h2 e h
        · simp only [takenCount, he, List.drop_succ_cons]
          exact h3
        · simp only [takenCount, dispatchedOf, he, List.take_succ_cons, List.map_cons, h4]
        · simp only [takenCount, yieldCount]; omega

theorem counts_map_halProcess (l : List Nat) :
    takenCount (l.map Event.halProcess) = 0 ∧ dispatchedOf (l.map Event.halProcess) = [] ∧
      yieldCount (l.map Event.halProcess) = 0 := by
  induction l with
  | nil => simp [takenCount, dispatchedOf, yieldCount]
  | cons a l ih => simpa [takenCount, dispatchedOf, yieldCount] using ih

theorem micros_of_time (cfg : Config) (s : EBF_Logic) (x tk : Nat) (h : x = tk % U32) :
    s.micros cfg x =
      (tk + (if cfg.EBF_SLEEP_IMPLEMENTATION = true then s.microsAddition else 0)) % U32 := by
  subst h
  unfold EBF_Logic.micros add32 U32
  split <;> simp

theorem busyWait_lower_bound (cfg : Config) (microsAt t : Nat → Nat) (c D fuel : Nat)
    (q : EBF_MessageQueue) (evs : List Event)
    (hclk : ∀ k, k < (busyWait cfg microsAt fuel
        { msgQueue := q, delayWanted := D, start := microsAt 0, reads := 1, events := evs }).reads →
      microsAt k = (t k + c) % U32)
    (hmono : ∀ k, k < (busyWait cfg microsAt fuel
        { msgQueue := q, delayWanted := D, start := microsAt 0, reads := 1, events := evs }).reads →
      ∀ j, j ≤ k → t j ≤ t k)
    (hspan : ∀ k, k < (busyWait cfg microsAt fuel
        { msgQueue := q, delayWanted := D, start := microsAt 0, reads := 1, events := evs }).reads →
      t k < t 0 + U32) :
    ((busyWait cfg microsAt fuel
        { msgQueue := q, delayWanted := D, start := microsAt 0, reads := 1, events := evs }
      ).delayWanted = 0 →
      D * 1000 ≤ sub32 (microsAt ((busyWait cfg microsAt fuel
          { msgQueue := q, delayWanted := D, start := microsAt 0, reads := 1, events := evs }
        ).reads - 1)) (microsAt 0) ∧
      t 0 + D * 1000 ≤ t ((busyWait cfg microsAt fuel
          { msgQueue := q, delayWanted := D, start := microsAt 0, reads := 1, events := evs }
        ).reads - 1)) ∧
    (∀ K, t 0 + D * 1000 ≤ t K → K ≤ fuel →
      (busyWait cfg microsAt fuel
        { msgQueue := q, delayWanted := D, start := microsAt 0, reads := 1, events := evs }
      ).delayWanted = 0) := by
  have hr1 := busyWait_reads cfg microsAt fuel
    { msgQueue := q, delayWanted := D, start := microsAt 0, reads := 1, events := evs }
  simp only at hr1
  have h0 : WaitInv t c D D (microsAt 0) 1 := by
    refine ⟨Nat.le_refl _, Nat.le_refl _, ?_, ?_⟩
    · rw [hclk 0 (by omega)]
      simp
    · simp
  obtain ⟨⟨-, g2, -, g4⟩, gK⟩ := busyWait_inv cfg microsAt t c D _ hclk hmono hspan fuel
    { msgQueue := q, delayWanted := D, start := microsAt 0, reads := 1, events := evs }
    (Nat.le_refl _) h0
  constructor
  · intro hz
    rw [hz] at g4
    simp only [Nat.sub_zero] at g4
    refine ⟨?_, by omega⟩
    have hlast := hclk _ (Nat.sub_lt (Nat.lt_of_lt_of_le Nat.zero_lt_one g2) Nat.zero_lt_one)
    have hfirst := hclk 0 (by omega)
    have hsp := hspan _ (Nat.sub_lt (Nat.lt_of_lt_of_le Nat.zero_lt_one g2) Nat.zero_lt_one)
    generalize (busyWait cfg microsAt fuel
      { msgQueue := q, delayWanted := D, start := microsAt 0, reads := 1, events := evs }
      ).reads - 1 = R at g4 hlast hsp ⊢
    rw [hlast, hfirst]
    unfold U32 at hsp
    unfold sub32 U32
    omega
  · intro K hK hKf
    apply gK K (by omega) (by simp only; omega)
    by_cases hf : 0 < fuel
    · exact Or.inl hf
    · right
      have hK0 : K = 0 := by omega
      subst hK0
      simp only
      omega

/-- C11. On the busy-wait path of `Process`, with `t k` the true time in microseconds
of the `k`-th reading of `::micros()`, the readings taken during the call being
non-decreasing and less than `2^32` microseconds after the first: the wanted delay
`D` is at least 1; if `Process` returns, the last reading it took shows the
drift-corrected microsecond clock at least `D * 1000` past `start`; it does return
once some reading `K` is that late and the loop is allowed `K` iterations. Each
iteration of the wait loop calls `yield()` and then either leaves the queue alone
or takes its oldest message and calls `Process()` of the driver named in it; over
the whole call the messages taken are the oldest ones, dispatched in queue order,
and no more than one per iteration. -/
theorem C11_busy_wait_lower_bound (cfg : Config) (env : Env) (fuel : Nat) (s : EBF_Logic)
    (t : Nat → Nat)
    (hpath : ¬ (cfg.EBF_SLEEP_IMPLEMENTATION = true ∧
      1 < (s.Process cfg env fuel).delayWanted ∧ s.sleepMode ≠ EBF_NO_SLEEP))
    (hclk : ∀ k, k < (s.Process cfg env fuel).reads → env.micros k = t k % U32)
    (hmono : ∀ k, k < (s.Process cfg env fuel).reads → ∀ j, j ≤ k → t j ≤ t k)
    (hspan : ∀ k, k < (s.Process cfg env fuel).reads → t k < t 0 + U32) :
    1 ≤ (s.Process cfg env fuel).delayWanted ∧
    ((s.Process cfg env fuel).rc = some EBF_OK →
      (s.Process cfg env fuel).delayWanted * 1000 ≤
        sub32 (s.micros cfg (env.micros ((s.Process cfg env fuel).reads - 1)))
          (s.micros cfg (env.micros 0)) ∧
      t 0 + (s.Process cfg env fuel).delayWanted * 1000
        ≤ t ((s.Process cfg env fuel).reads - 1)) ∧
    (∀ K, t 0 + (s.Process cfg env fuel).delayWanted * 1000 ≤ t K → K ≤ fuel →
      (s.Process cfg env fuel).rc = some EBF_OK) ∧
    (∀ w : WaitState,
      ((waitBody cfg (fun k => s.micros cfg (env.micros k)) w).msgQueue = w.msgQueue ∧
        (waitBody cfg (fun k => s.micros cfg (env.micros k)) w).events
          = w.events ++ [Event.yield]) ∨
      (∃ m rest, w.msgQueue.entries = m :: rest ∧
        (waitBody cfg (fun k => s.micros cfg (env.micros k)) w).msgQueue.entries = rest ∧
        (waitBody cfg (fun k => s.micros cfg (env.micros k)) w).events
          = w.events ++ [Event.yield, Event.getMessage, Event.msgProcess m.param1])) ∧
    ((s.Process cfg env fuel).logic.msgQueue.entries
        = s.msgQueue.entries.drop (takenCount (s.Process cfg env fuel).events) ∧
      dispatchedOf (s.Process cfg env fuel).events
        = (s.msgQueue.entries.take (takenCount (s.Process cfg env fuel).events)).map
            (fun m => m.param1) ∧
      takenCount (s.Process cfg env fuel).events
        ≤ yieldCount (s.Process cfg env fuel).events) := by
  have hD := Process_delayWanted cfg env fuel s
  have hpos := pollStep_delay_pos (fun i => s.millis cfg (env.millis i)) env.timersDelay s
  have hc1 : ¬ (cfg.EBF_SLEEP_IMPLEMENTATION = true ∧
      (pollStep (fun i => s.millis cfg (env.millis i)) env.timersDelay s).delayWanted > 1 ∧
      s.sleepMode ≠ EBF_NO_SLEEP) := fun h => hpath ⟨h.1, hD ▸ h.2.1, h.2.2⟩
  have hP := Process_wait cfg env fuel s hc1
  rw [hD]
  rw [hP] at hclk hmono hspan
  simp only at hclk hmono hspan
  have hclk2 : ∀ k, k < (busyWait cfg (fun k => s.micros cfg (env.micros k)) fuel
      { msgQueue := s.msgQueue
        delayWanted :=
          (pollStep (fun i => s.millis cfg (env.millis i)) env.timersDelay s).delayWanted
        start := (fun k => s.micros cfg (env.micros k)) 0, reads := 1
        events := (pollStep (fun i => s.millis cfg (env.millis i)) env.timersDelay s).events
      }).reads →
      (fun k => s.micros cfg (env.micros k)) k =
        (t k + (if cfg.EBF_SLEEP_IMPLEMENTATION = true then s.microsAddition else 0)) % U32 :=
    fun k hk => micros_of_time cfg s _ _ (hclk k hk)
  obtain ⟨b1, b2⟩ := busyWait_lower_bound cfg (fun k => s.micros cfg (env.micros k)) t _
    (pollStep (fun i => s.millis cfg (env.millis i)) env.timersDelay s).delayWanted fuel
    s.msgQueue (pollStep (fun i => s.millis cfg (env.millis i)) env.timersDelay s).events
    hclk2 hmono hspan
  obtain ⟨extra, m1, -, m3, m4, m5⟩ := busyWait_messages cfg
    (fun k => s.micros cfg (env.micros k)) fuel
    { msgQueue := s.msgQueue
      delayWanted :=
        (pollStep (fun i => s.millis cfg (env.millis i)) env.timersDelay s).delayWanted
      start := s.micros cfg (env.micros 0), reads := 1
      events := (pollStep (fun i => s.millis cfg (env.millis i)) env.timersDelay s).events }
  obtain ⟨p1, p2, p3⟩ := counts_map_halProcess ((List.range s.halIndex).filter
    (isPolled (fun i => s.millis cfg (env.millis i)) s.pHalInstances))
  rw [← pollStep_events (fun i => s.millis cfg (env.millis i)) env.timersDelay s] at p1 p2 p3
  rw [hP]
  simp only
  refine ⟨by omega, ?_, ?_, ?_, ?_, ?_, ?_⟩
  · intro hrc
    apply b1
    by_contra hne
    simp [hne] at hrc
  · intro K hK hKf
    simp [b2 K hK hKf]
  · intro w
    rcases drainOne_cases cfg w.msgQueue with hd | ⟨m, rest, he, hd⟩
    · left
      rw [waitBody_eq, hd]
      simp
    · right
      refine ⟨m, rest, he, ?_, ?_⟩
      · rw [waitBody_eq, hd]
      · rw [waitBody_eq, hd]
        simp
  · rw [m1, takenCount_append, p1, Nat.zero_add]
    exact m3
  · rw [m1, dispatchedOf_append, takenCount_append, p1, p2, Nat.zero_add, List.nil_append]
    exact m4
  · rw [m1, takenCount_append, yieldCount_append, p1, p3]
    omega

set_option maxRecDepth 100000 in
/-- Witness of C11: two messages pending and a wanted delay of 10 ms on a clock read
every half millisecond; the call returns after 21 readings and 11 iterations,
10000 microseconds after `start`, having dispatched to drivers 7 and 9. -/
theorem C11_busy_wait_lower_bound_witness :
    (queuedLogic.Process cfgAvr slowEnv 30).rc = some EBF_OK ∧
    (queuedLogic.Process cfgAvr slowEnv 30).delayWanted = 10 ∧
    (queuedLogic.Process cfgAvr slowEnv 30).reads = 21 ∧
    yieldCount (queuedLogic.Process cfgAvr slowEnv 30).events = 11 ∧
    (queuedLogic.Process cfgAvr slowEnv 30).delayWanted * 1000 ≤
      sub32 (queuedLogic.micros cfgAvr
          (slowEnv.micros ((queuedLogic.Process cfgAvr slowEnv 30).reads - 1)))
        (queuedLogic.micros cfgAvr (slowEnv.micros 0)) ∧
    dispatchedOf (queuedLogic.Process cfgAvr slowEnv 30).events
      = (queuedLogic.msgQueue.entries.take
          (takenCount (queuedLogic.Process cfgAvr slowEnv 30).events)).map (fun m => m.param1) ∧
    dispatchedOf (queuedLogic.Process cfgAvr slowEnv 30).events = [7, 9] :=
  ⟨by decide, by decide, by decide, by decide,
    ((C11_busy_wait_lower_bound cfgAvr slowEnv 30 queuedLogic (fun k => 500 * k)
      (by decide) (by decide) (by decide) (by decide)).2.1 (by decide)).1,
    (C11_busy_wait_lower_bound cfgAvr slowEnv 30 queuedLogic (fun k => 500 * k)
      (by decide) (by decide) (by decide) (by decide)).2.2.2.2.2.1,
    by decide⟩

end EBF
